import Mathlib

/-!
# Hypothesis stack of the phrase-based decoder (`HypothesisStackNormal.cpp`)

A shallow embedding of `Moses::HypothesisStackNormal` (branch `eva_maxent`):
the constructor, `Add`, `AddPrune`, `PruneToSize`, `GetBestHypothesis` and
`GetSortedList`, followed by theorems about admission, recombination, threshold
pruning and result extraction.

Modelling conventions.

* The C++ object graph is made explicit: the stack value carries, besides the
  member fields of the class, the part of the heap the methods touch (the arc
  lists, the hypotheses given back to the object pool) and the sentence
  statistics of `StaticData`.
* A `Hypothesis*` is the record `Hypothesis`; distinct objects carry distinct
  `m_id`s.
* `m_hypos` is a `std::set` ordered by the recombination orderer.  The orderer is
  abstracted to the field `key`: two hypotheses are equivalent for the set iff
  their keys are equal, and the set iterates in key order.
* Scores are exact integers; `m_bestScore` and `m_worstScore` range over the
  integers extended by the sentinel `⊥` (negative infinity).  Rounding and NaN of
  `float` are outside this model: a `float` sum may round to one of its operands, so
  the theorems take `m_bestScore + m_beamWidth` as the value the code compares
  against, and say that a call returns only where its pruning pass has a threshold
  to read (`ThresholdDefined`).
* `size_t` is 64 bits wide.
* Reading `top()` of an empty `priority_queue` and reaching `abort()` are the two
  faults a call can end in.
-/

namespace Moses

/-- A score register: an integer or `⊥`, the `-infinity` the constructor stores. -/
abbrev Score := WithBot ℤ

/-- Modelled from the spec: the class `WordsRange` (the current source span of a
hypothesis), which is not among the sources: a contiguous range of positions. -/
structure WordsRange where
  m_startPos : Nat
  m_endPos : Nat
  deriving DecidableEq, Repr

/-- Modelled from the spec: `WordsRange::GetStartPos`, the first position of the span. -/
def WordsRange.GetStartPos (r : WordsRange) : Nat := r.m_startPos

/-- Modelled from the spec: `WordsRange::GetNumWordsCovered`, the number of source
words consumed by the most recent step. -/
def WordsRange.GetNumWordsCovered (r : WordsRange) : Nat := r.m_endPos + 1 - r.m_startPos

/-- Modelled from the spec: the class `WordsBitmap` (coverage), which is not among the
sources: one bit per source position. -/
structure WordsBitmap where
  m_bitmap : List Bool
  deriving DecidableEq, Repr

/-- Modelled from the spec: `WordsBitmap::GetValue`, whether a position is covered. -/
def WordsBitmap.GetValue (b : WordsBitmap) (pos : Nat) : Bool := b.m_bitmap.getD pos false

/-- The fields of a `Hypothesis` that the stack reads.  `key` stands for the
equivalence class under the recombination orderer of `m_hypos`. -/
structure Hypothesis where
  m_id : Nat
  key : Nat
  m_totalScore : ℤ
  m_currSourceWordsRange : WordsRange
  m_sourceCompleted : WordsBitmap
  deriving DecidableEq, Repr

def Hypothesis.GetTotalScore (h : Hypothesis) : ℤ := h.m_totalScore

def Hypothesis.GetCurrSourceWordsRange (h : Hypothesis) : WordsRange := h.m_currSourceWordsRange

def Hypothesis.GetWordsBitmap (h : Hypothesis) : WordsBitmap := h.m_sourceCompleted

/-- The counters of `SentenceStats` that the stack increments. -/
structure SentenceStats where
  m_numDiscarded : Nat
  m_numRecombinations : Nat
  m_numPruned : Nat
  deriving DecidableEq, Repr

/-- The ways a call can fail to return. -/
inductive Fault where
  | emptyHeapTop
  | abort
  deriving DecidableEq, Repr

instance instDecidableEqExcept {ε α : Type} [DecidableEq ε] [DecidableEq α] :
    DecidableEq (Except ε α)
  | .ok a, .ok b => if h : a = b then isTrue (by rw [h]) else isFalse (fun e => h (by cases e; rfl))
  | .error a, .error b =>
    if h : a = b then isTrue (by rw [h]) else isFalse (fun e => h (by cases e; rfl))
  | .ok _, .error _ => isFalse (fun e => by cases e)
  | .error _, .ok _ => isFalse (fun e => by cases e)

/-- The stack object together with the heap and global state its methods touch.
`arcs` holds a pair `(w, l)` for every `w->AddArc(l)`; `freed` lists the
hypotheses handed to `FREEHYPO`. -/
structure HypothesisStackNormal where
  m_hypos : List Hypothesis
  m_bestScore : Score
  m_worstScore : Score
  m_beamWidth : ℤ
  m_maxHypoStackSize : Nat
  m_nBestIsEnabled : Bool
  useMaxentReordering : Bool
  arcs : List (Hypothesis × Hypothesis)
  freed : List Hypothesis
  sentenceStats : SentenceStats
  deriving DecidableEq, Repr

namespace HypothesisStackNormal

/-- The constructor (lines 34-39): both score registers start at `-infinity`.  The
configuration the constructor and the base class read from `StaticData` is passed in. -/
def new (beamWidth : ℤ) (maxHypoStackSize : Nat) (nBestIsEnabled useMaxentReordering : Bool) :
    HypothesisStackNormal :=
  { m_hypos := []
    m_bestScore := ⊥
    m_worstScore := ⊥
    m_beamWidth := beamWidth
    m_maxHypoStackSize := maxHypoStackSize
    m_nBestIsEnabled := nBestIsEnabled
    useMaxentReordering := useMaxentReordering
    arcs := []
    freed := []
    sentenceStats := ⟨0, 0, 0⟩ }

/-- The number of members, `m_hypos.size()`. -/
def size (s : HypothesisStackNormal) : Nat := s.m_hypos.length

/-- Modelled from the spec: the macro `FREEHYPO`, which is not among the sources: the
hypothesis is destroyed (returned to the allocator). -/
def FREEHYPO (s : HypothesisStackNormal) (hypo : Hypothesis) : HypothesisStackNormal :=
  { s with freed := s.freed ++ [hypo] }

/-- Modelled from the spec: `Detach`, declared in the header, which is not among the
sources: the member the iterator points at leaves the primary storage and stays alive. -/
def Detach (s : HypothesisStackNormal) (iter : Hypothesis) : HypothesisStackNormal :=
  { s with m_hypos := s.m_hypos.erase iter }

/-- Modelled from the spec: `Remove`, declared in the header, which is not among the
sources: the member the iterator points at is destroyed and leaves the primary storage. -/
def Remove (s : HypothesisStackNormal) (iter : Hypothesis) : HypothesisStackNormal :=
  Detach (FREEHYPO s iter) iter

/-- Modelled from the spec: `Hypothesis::AddArc`, which is not among the sources: the
loser is kept alive as an arc attached to the winner. -/
def AddArc (s : HypothesisStackNormal) (winner loser : Hypothesis) : HypothesisStackNormal :=
  { s with arcs := s.arcs ++ [(winner, loser)] }

/-- The arc list of a hypothesis in the current heap. -/
def arcList (s : HypothesisStackNormal) (w : Hypothesis) : List Hypothesis :=
  (s.arcs.filter (fun p => p.1 = w)).map Prod.snd

/-- The value of `2*m_maxHypoStackSize-1` in `size_t` arithmetic. -/
def pruneLimit (maxHypoStackSize : Nat) : Nat :=
  (2 * maxHypoStackSize + (2 ^ 64 - 1)) % 2 ^ 64

/-- The `priority_queue<float>`: a list kept in non-increasing order, greatest first. -/
abbrev PriorityQueue := List ℤ

def PriorityQueue.push (q : PriorityQueue) (x : ℤ) : PriorityQueue :=
  List.orderedInsert (· ≥ ·) x q

def PriorityQueue.pop (q : PriorityQueue) : PriorityQueue := q.tail

def PriorityQueue.top (q : PriorityQueue) : Option ℤ := q.head?

/-- The first loop of `PruneToSize` (lines 173-184): push every score above
`m_bestScore+m_beamWidth`. -/
def pushScores (s : HypothesisStackNormal) : List Hypothesis → PriorityQueue → PriorityQueue
  | [], q => q
  | hypo :: rest, q =>
    if s.m_bestScore + (s.m_beamWidth : Score) < (hypo.GetTotalScore : Score) then
      pushScores s rest (q.push hypo.GetTotalScore)
    else
      pushScores s rest q

/-- The threshold `PruneToSize` computes (lines 169-193), `none` when `top()` is read
from an empty queue. -/
def scoreThreshold (s : HypothesisStackNormal) (newSize : Nat) : Option ℤ :=
  let bestScores := pushScores s s.m_hypos []
  let minNewSizeHeapSize := if newSize > bestScores.length then bestScores.length else newSize
  (PriorityQueue.pop^[minNewSizeHeapSize - 1] bestScores).top

/-- `PruneToSize` (lines 165-228). -/
def PruneToSize (s : HypothesisStackNormal) (newSize : Nat) : Except Fault HypothesisStackNormal :=
  if s.m_hypos.length > newSize then
    match scoreThreshold s newSize with
    | none => .error Fault.emptyHeapTop
    | some scoreThreshold =>
      let removed := s.m_hypos.filter (fun hypo => hypo.GetTotalScore < scoreThreshold)
      .ok { s with
            m_hypos := s.m_hypos.filter (fun hypo => ¬ hypo.GetTotalScore < scoreThreshold)
            freed := s.freed ++ removed
            sentenceStats := { s.sentenceStats with
                               m_numPruned := s.sentenceStats.m_numPruned + removed.length }
            m_worstScore := (scoreThreshold : Score) }
  else
    .ok s

/-- The result of `m_hypos.insert(hypo)`: the member equivalent to `hypo`, if there is one. -/
def findEquiv (s : HypothesisStackNormal) (hypo : Hypothesis) : Option Hypothesis :=
  s.m_hypos.find? (fun e => e.key = hypo.key)

/-- `Add` (lines 50-79).  The result is the pair the C++ returns (the element the
iterator points at, whether the insertion took place) and the new state. -/
def Add (s : HypothesisStackNormal) (hypo : Hypothesis) :
    Except Fault ((Hypothesis × Bool) × HypothesisStackNormal) :=
  match findEquiv s hypo with
  | some existing => .ok ((existing, false), s)
  | none =>
    let s1 := { s with m_hypos := List.orderedInsert (fun a b => a.key ≤ b.key) hypo s.m_hypos }
    let s2 :=
      if s1.m_bestScore < (hypo.GetTotalScore : Score) then
        let s' := { s1 with m_bestScore := (hypo.GetTotalScore : Score) }
        if s'.m_worstScore < s'.m_bestScore + (s'.m_beamWidth : Score) then
          { s' with m_worstScore := s'.m_bestScore + (s'.m_beamWidth : Score) }
        else s'
      else s1
    if s2.m_hypos.length > pruneLimit s2.m_maxHypoStackSize then
      (PruneToSize s2 s2.m_maxHypoStackSize).map (fun s3 => ((hypo, true), s3))
    else
      .ok ((hypo, true), s2)

/-- The test of lines 112-127: whether recombination of `hypo` with `hypoExisting` is
skipped when maxent reordering is in use. -/
def doNotRecombine (hypo hypoExisting : Hypothesis) : Bool :=
  let currSourceWordsRange := hypo.GetCurrSourceWordsRange
  let existSourceWordsRange := hypoExisting.GetCurrSourceWordsRange
  if existSourceWordsRange.GetStartPos ≠ 0
      ∧ ¬ hypoExisting.GetWordsBitmap.GetValue (existSourceWordsRange.GetStartPos - 1) then
    if currSourceWordsRange.GetNumWordsCovered ≠ existSourceWordsRange.GetNumWordsCovered then
      true
    else false
  else if currSourceWordsRange.GetStartPos ≠ 0
      ∧ ¬ hypo.GetWordsBitmap.GetValue (currSourceWordsRange.GetStartPos - 1) then
    if currSourceWordsRange.GetNumWordsCovered ≠ existSourceWordsRange.GetNumWordsCovered then
      true
    else false
  else false

/-- `AddPrune` (lines 81-163): the returned flag and the new state. -/
def AddPrune (s : HypothesisStackNormal) (hypo : Hypothesis) :
    Except Fault (Bool × HypothesisStackNormal) :=
  if (hypo.GetTotalScore : Score) < s.m_worstScore then
    .ok (false, FREEHYPO
      { s with sentenceStats := { s.sentenceStats with
                                  m_numDiscarded := s.sentenceStats.m_numDiscarded + 1 } } hypo)
  else
    match Add s hypo with
    | .error f => .error f
    | .ok ((_, true), s1) => .ok (true, s1)
    | .ok ((hypoExisting, false), s1) =>
      if s1.useMaxentReordering ∧ doNotRecombine hypo hypoExisting then
        .ok (true, s1)
      else
        let s2 := { s1 with sentenceStats := { s1.sentenceStats with
                      m_numRecombinations := s1.sentenceStats.m_numRecombinations + 1 } }
        if hypoExisting.GetTotalScore < hypo.GetTotalScore then
          let s3 := if s2.m_nBestIsEnabled then Detach (AddArc s2 hypo hypoExisting) hypoExisting
                    else Remove s2 hypoExisting
          match Add s3 hypo with
          | .error f => .error f
          | .ok ((_, false), _) => .error Fault.abort
          | .ok ((_, true), s4) => .ok (false, s4)
        else
          if s2.m_nBestIsEnabled then .ok (false, AddArc s2 hypoExisting hypo)
          else .ok (false, FREEHYPO s2 hypo)

/-- A run of `AddPrune` calls, one per hypothesis, in order; the flags are dropped. -/
def AddPruneAll (s : HypothesisStackNormal) : List Hypothesis → Except Fault HypothesisStackNormal
  | [] => .ok s
  | hypo :: rest =>
    match AddPrune s hypo with
    | .error f => .error f
    | .ok (_, s1) => AddPruneAll s1 rest

/-- `GetBestHypothesis` (lines 230-245): the linear scan for the greatest score, `none`
for `NULL`.  The method is `const`: the state it returns is the state it was given. -/
def GetBestHypothesis (s : HypothesisStackNormal) : Option Hypothesis × HypothesisStackNormal :=
  match s.m_hypos with
  | [] => (none, s)
  | first :: rest =>
    (some (rest.foldl (fun bestHypo hypo =>
      if bestHypo.GetTotalScore < hypo.GetTotalScore then hypo else bestHypo) first), s)

/-- Modelled from the spec: the comparator `CompareHypothesisTotalScore`, which is not
among the sources: descending score, `a` goes before `b` when its score is greater. -/
def CompareHypothesisTotalScore (a b : Hypothesis) : Bool :=
  decide (b.GetTotalScore < a.GetTotalScore)

/-- The call `sort(first, last, comp)`: an insertion sort that leaves `a` before `b` unless
`comp b a`.  Of the orders `std::sort` may produce among equal scores this is one. -/
def stdSort (comp : Hypothesis → Hypothesis → Bool) (l : List Hypothesis) : List Hypothesis :=
  l.insertionSort (fun a b => comp b a = false)

/-- `GetSortedList` (lines 247-254): the members copied to a vector and sorted.  The
method is `const`: the state it returns is the state it was given. -/
def GetSortedList (s : HypothesisStackNormal) : List Hypothesis × HypothesisStackNormal :=
  (stdSort CompareHypothesisTotalScore s.m_hypos, s)

/-! ## Specification-side notions -/

/-- The scores of the members above the beam margin `m_bestScore + m_beamWidth`, in
iteration order: the candidates of the pruning pass. -/
def candidateScores (s : HypothesisStackNormal) : List ℤ :=
  (s.m_hypos.filter
    (fun hypo => s.m_bestScore + (s.m_beamWidth : Score) < (hypo.GetTotalScore : Score))).map
    Hypothesis.GetTotalScore

/-- The value `t` is the `k`-th largest entry of `l`, duplicates counted: it occurs in `l`,
fewer than `k` entries are greater, and at least `k` entries are greater or equal. -/
def IsKthLargest (l : List ℤ) (k : Nat) (t : ℤ) : Prop :=
  t ∈ l ∧ l.countP (fun x => t < x) < k ∧ k ≤ l.countP (fun x => t ≤ x)

/-- The states a fresh stack reaches by `AddPrune` calls that return. -/
def Reachable (beamWidth : ℤ) (maxHypoStackSize : Nat) (nBestIsEnabled useMaxentReordering : Bool)
    (s : HypothesisStackNormal) : Prop :=
  ∃ hypos : List Hypothesis,
    AddPruneAll (new beamWidth maxHypoStackSize nBestIsEnabled useMaxentReordering) hypos = .ok s

/-- The hypothesis begins its current span right after a coverage gap: the span starts at
a position `p > 0` and position `p - 1` is not covered in the hypothesis's own bitmap. -/
def FollowsGap (h : Hypothesis) : Prop :=
  0 < h.GetCurrSourceWordsRange.GetStartPos ∧
    h.GetWordsBitmap.GetValue (h.GetCurrSourceWordsRange.GetStartPos - 1) = false

/-- The symmetric condition of the specification: the two current spans cover different
numbers of source words and at least one of the two hypotheses follows a gap. -/
def ReorderingException (hypo hypoExisting : Hypothesis) : Prop :=
  hypo.GetCurrSourceWordsRange.GetNumWordsCovered
      ≠ hypoExisting.GetCurrSourceWordsRange.GetNumWordsCovered ∧
    (FollowsGap hypoExisting ∨ FollowsGap hypo)

/-! ## Intermediate states of the methods -/

/-- The state `PruneToSize` leaves when its threshold is `t` (lines 195-226). -/
def prunedAt (s : HypothesisStackNormal) (t : ℤ) : HypothesisStackNormal :=
  { s with
    m_hypos := s.m_hypos.filter (fun hypo => ¬ hypo.GetTotalScore < t)
    freed := s.freed ++ s.m_hypos.filter (fun hypo => hypo.GetTotalScore < t)
    sentenceStats := { s.sentenceStats with
      m_numPruned := s.sentenceStats.m_numPruned
        + (s.m_hypos.filter (fun hypo => hypo.GetTotalScore < t)).length }
    m_worstScore := (t : Score) }

/-- The state of `Add` after a successful insertion and the update of the two score
registers (lines 52-65), before the size check. -/
def afterInsert (s : HypothesisStackNormal) (hypo : Hypothesis) : HypothesisStackNormal :=
  { s with
    m_hypos := List.orderedInsert (fun a b => a.key ≤ b.key) hypo s.m_hypos
    m_bestScore := if s.m_bestScore < (hypo.GetTotalScore : Score) then
        (hypo.GetTotalScore : Score) else s.m_bestScore
    m_worstScore := if s.m_bestScore < (hypo.GetTotalScore : Score) then
        (if s.m_worstScore < (hypo.GetTotalScore : Score) + (s.m_beamWidth : Score) then
          (hypo.GetTotalScore : Score) + (s.m_beamWidth : Score) else s.m_worstScore)
      else s.m_worstScore }

/-- The insertion path of `Add` (lines 55-75): the size check and, past the lazy limit,
the pruning pass. -/
def insertResult (s : HypothesisStackNormal) (hypo : Hypothesis) :
    Except Fault HypothesisStackNormal :=
  if (afterInsert s hypo).m_hypos.length > pruneLimit s.m_maxHypoStackSize then
    PruneToSize (afterInsert s hypo) s.m_maxHypoStackSize
  else .ok (afterInsert s hypo)

/-- The state after `AddRecombination` (line 130). -/
def countRecombination (s : HypothesisStackNormal) : HypothesisStackNormal :=
  { s with sentenceStats := { s.sentenceStats with
      m_numRecombinations := s.sentenceStats.m_numRecombinations + 1 } }

/-- The state after the losing member left the primary storage (lines 137-142). -/
def withoutExisting (s : HypothesisStackNormal) (hypo hypoExisting : Hypothesis) :
    HypothesisStackNormal :=
  if s.m_nBestIsEnabled then
    Detach (AddArc (countRecombination s) hypo hypoExisting) hypoExisting
  else Remove (countRecombination s) hypoExisting

/-- The pruning pass that the insertion of `hypo` into `s` may run has a threshold to
read: after the insertion the stack is within the lazy limit, or some member is above
`m_bestScore + m_beamWidth`. -/
def ThresholdDefined (s : HypothesisStackNormal) (hypo : Hypothesis) : Prop :=
  (afterInsert s hypo).m_hypos.length ≤ pruneLimit s.m_maxHypoStackSize ∨
    candidateScores (afterInsert s hypo) ≠ []

/-! ## Invariants of the reachable states -/

/-- What holds of every state a fresh stack reaches through `AddPrune`. -/
structure Inv (s : HypothesisStackNormal) : Prop where
  keys : (s.m_hypos.map Hypothesis.key).Nodup
  le_best : ∀ m ∈ s.m_hypos, (m.GetTotalScore : Score) ≤ s.m_bestScore
  attained : (s.m_hypos = [] ∧ s.m_bestScore = ⊥ ∧ s.m_worstScore = ⊥) ∨
    ∃ m ∈ s.m_hypos, (m.GetTotalScore : Score) = s.m_bestScore
  floor : s.m_worstScore = s.m_bestScore + (s.m_beamWidth : Score) ∨
    ∀ m ∈ s.m_hypos, s.m_worstScore ≤ (m.GetTotalScore : Score)
  margin : s.m_bestScore + (s.m_beamWidth : Score) ≤ s.m_worstScore
  bound : s.m_hypos.length ≤ pruneLimit s.m_maxHypoStackSize ∨
    ((∀ m ∈ s.m_hypos, s.m_worstScore ≤ (m.GetTotalScore : Score)) ∧
      s.m_hypos.countP (fun m => s.m_worstScore < (m.GetTotalScore : Score)) + 1
        ≤ s.m_maxHypoStackSize ∧
      s.m_bestScore + (s.m_beamWidth : Score) < s.m_worstScore)

/-- What the insertion path of `Add` needs of the state it starts from. -/
structure PreInsert (s : HypothesisStackNormal) (hypo : Hypothesis) : Prop where
  keys : (s.m_hypos.map Hypothesis.key).Nodup
  fresh : ∀ m ∈ s.m_hypos, m.key ≠ hypo.key
  le_best : ∀ m ∈ s.m_hypos, (m.GetTotalScore : Score) ≤ s.m_bestScore
  attained : (∃ m ∈ s.m_hypos, (m.GetTotalScore : Score) = s.m_bestScore) ∨
    s.m_bestScore < (hypo.GetTotalScore : Score)
  floor : s.m_worstScore = s.m_bestScore + (s.m_beamWidth : Score) ∨
    ∀ m ∈ s.m_hypos, s.m_worstScore ≤ (m.GetTotalScore : Score)
  margin : s.m_bestScore + (s.m_beamWidth : Score) ≤ s.m_worstScore
  admitted : ¬ (hypo.GetTotalScore : Score) < s.m_worstScore

/-- The part of `Inv` that holds between the insertion and the size check. -/
structure Core (s : HypothesisStackNormal) : Prop where
  keys : (s.m_hypos.map Hypothesis.key).Nodup
  le_best : ∀ m ∈ s.m_hypos, (m.GetTotalScore : Score) ≤ s.m_bestScore
  attained : ∃ m ∈ s.m_hypos, (m.GetTotalScore : Score) = s.m_bestScore
  floor : s.m_worstScore = s.m_bestScore + (s.m_beamWidth : Score) ∨
    ∀ m ∈ s.m_hypos, s.m_worstScore ≤ (m.GetTotalScore : Score)
  margin : s.m_bestScore + (s.m_beamWidth : Score) ≤ s.m_worstScore

/-- The configuration of the stack is the same in both states. -/
def SameConfig (s s' : HypothesisStackNormal) : Prop :=
  s'.m_beamWidth = s.m_beamWidth ∧ s'.m_maxHypoStackSize = s.m_maxHypoStackSize ∧
  s'.m_nBestIsEnabled = s.m_nBestIsEnabled ∧ s'.useMaxentReordering = s.useMaxentReordering

/-! ## Concrete hypotheses and runs -/

/-- A hypothesis of key 7 and score 10 whose span starts at 0. -/
def hypoTen : Hypothesis := ⟨1, 7, 10, ⟨0, 0⟩, ⟨[true, false, false, false]⟩⟩

/-- A hypothesis of key 7 and score 12 whose span starts at 0. -/
def hypoTwelve : Hypothesis := ⟨2, 7, 12, ⟨0, 1⟩, ⟨[true, true, false, false]⟩⟩

/-- A member of key 7 whose span `[2, 3]` follows the uncovered position 1. -/
def gapExisting : Hypothesis := ⟨3, 7, 10, ⟨2, 3⟩, ⟨[true, false, true, true]⟩⟩

/-- A hypothesis of key 7 with the same coverage whose span `[3, 3]` is one word long. -/
def gapIncoming : Hypothesis := ⟨4, 7, 12, ⟨3, 3⟩, ⟨[true, false, true, true]⟩⟩

/-- Two hypotheses of score 5 with the keys 1 and 2, and one of score 7 with key 3. -/
def tieOne : Hypothesis := ⟨5, 1, 5, ⟨0, 0⟩, ⟨[true, false]⟩⟩

def tieTwo : Hypothesis := ⟨6, 2, 5, ⟨1, 1⟩, ⟨[false, true]⟩⟩

def hypoSeven : Hypothesis := ⟨7, 3, 7, ⟨0, 1⟩, ⟨[true, true]⟩⟩

/-- A hypothesis of score 3 with the key 2. -/
def hypoThree : Hypothesis := ⟨8, 2, 3, ⟨1, 1⟩, ⟨[false, true]⟩⟩

/-- The first four hypotheses of the scenario of the specification: pairwise distinct
keys, scores 5, 4, 3, 6. -/
def scenarioHypos : List Hypothesis :=
  [⟨11, 1, 5, ⟨0, 0⟩, ⟨[true]⟩⟩, ⟨12, 2, 4, ⟨0, 0⟩, ⟨[true]⟩⟩,
   ⟨13, 3, 3, ⟨0, 0⟩, ⟨[true]⟩⟩, ⟨14, 4, 6, ⟨0, 0⟩, ⟨[true]⟩⟩]

/-- The last hypothesis of the scenario, of score -10. -/
def scenarioLast : Hypothesis := ⟨15, 5, -10, ⟨0, 0⟩, ⟨[true]⟩⟩

/-- The state a run from a fresh stack ends in; the fresh stack when the run faults. -/
def stateAfter (beamWidth : ℤ) (maxHypoStackSize : Nat) (nBestIsEnabled useMaxentReordering : Bool)
    (hypos : List Hypothesis) : HypothesisStackNormal :=
  match AddPruneAll (new beamWidth maxHypoStackSize nBestIsEnabled useMaxentReordering) hypos with
  | .ok s => s
  | .error _ => new beamWidth maxHypoStackSize nBestIsEnabled useMaxentReordering

/-! ## The priority queue -/

theorem sorted_countP_gt_le : ∀ (l : List ℤ), l.Sorted (· ≥ ·) → ∀ (i : Nat) (hi : i < l.length),
    l.countP (fun x => l[i] < x) ≤ i
  | [], _, i, hi => by simp at hi
  | a :: l, hs, 0, _ => by
    have h1 := List.rel_of_sorted_cons hs
    simp only [List.getElem_cons_zero, Nat.le_zero_eq, List.countP_eq_zero]
    intro x hx
    rcases List.mem_cons.mp hx with rfl | hx
    · simp
    · have := h1 x hx
      simp only [decide_eq_true_eq, not_lt]
      exact this
  | a :: l, hs, i + 1, hi => by
    have ih := sorted_countP_gt_le l (List.Sorted.of_cons hs) i (by simpa using hi)
    simp only [List.getElem_cons_succ, List.countP_cons]
    split <;> omega

theorem sorted_countP_ge_le : ∀ (l : List ℤ), l.Sorted (· ≥ ·) → ∀ (i : Nat) (hi : i < l.length),
    i + 1 ≤ l.countP (fun x => l[i] ≤ x)
  | [], _, i, hi => by simp at hi
  | a :: l, _, 0, _ => by
    simp [List.countP_cons]
  | a :: l, hs, i + 1, hi => by
    have hi2 : i < l.length := by simpa using hi
    have ih := sorted_countP_ge_le l (List.Sorted.of_cons hs) i hi2
    have h1 : a ≥ l[i] := List.rel_of_sorted_cons hs _ (List.getElem_mem hi2)
    simp only [List.getElem_cons_succ, List.countP_cons]
    have : decide (l[i] ≤ a) = true := by simpa using h1
    rw [if_pos this]
    omega

theorem pop_iterate (n : Nat) : ∀ q : PriorityQueue, PriorityQueue.pop^[n] q = q.drop n := by
  induction n with
  | zero => intro q; rfl
  | succ n ih =>
    intro q
    rw [Function.iterate_succ_apply, ih]
    cases q <;> simp [PriorityQueue.pop]

theorem pushScores_sorted_perm (s : HypothesisStackNormal) :
    ∀ (l : List Hypothesis) (q : PriorityQueue), q.Sorted (· ≥ ·) →
      (pushScores s l q).Sorted (· ≥ ·) ∧
      (pushScores s l q).Perm (q ++ (l.filter (fun hypo =>
        s.m_bestScore + (s.m_beamWidth : Score) < (hypo.GetTotalScore : Score))).map
          Hypothesis.GetTotalScore)
  | [], q, hq => by simp [pushScores, hq]
  | hypo :: rest, q, hq => by
    by_cases hc : s.m_bestScore + (s.m_beamWidth : Score) < (hypo.GetTotalScore : Score)
    · have ih := pushScores_sorted_perm s rest (q.push hypo.GetTotalScore)
        (List.Sorted.orderedInsert _ _ hq)
      simp only [pushScores, if_pos hc, List.filter_cons, decide_eq_true hc, if_true,
        List.map_cons]
      refine ⟨ih.1, ih.2.trans ?_⟩
      have hp : (q.push hypo.GetTotalScore).Perm (hypo.GetTotalScore :: q) :=
        List.perm_orderedInsert _ _ _
      refine (hp.append_right _).trans ?_
      simp only [List.cons_append]
      exact List.perm_middle.symm
    · have ih := pushScores_sorted_perm s rest q hq
      simp only [pushScores, if_neg hc, List.filter_cons, decide_eq_false hc]
      simpa using ih

theorem scoreThreshold_eq_none (s : HypothesisStackNormal) (n : Nat)
    (h : candidateScores s = []) : scoreThreshold s n = none := by
  have hp := (pushScores_sorted_perm s s.m_hypos [] (List.sorted_nil)).2
  simp only [List.nil_append] at hp
  have hl : pushScores s s.m_hypos [] = [] := by
    have := hp.length_eq
    rw [show (List.map Hypothesis.GetTotalScore (List.filter (fun hypo =>
      decide (s.m_bestScore + (s.m_beamWidth : Score) < (hypo.GetTotalScore : Score)))
        s.m_hypos)) = candidateScores s from rfl, h] at this
    exact List.eq_nil_of_length_eq_zero this
  simp [scoreThreshold, hl, pop_iterate, PriorityQueue.top]

theorem scoreThreshold_spec (s : HypothesisStackNormal) (n : Nat) (hn : 1 ≤ n)
    (h : candidateScores s ≠ []) :
    ∃ t, scoreThreshold s n = some t ∧
      IsKthLargest (candidateScores s) (min n (candidateScores s).length) t := by
  obtain ⟨hs, hp⟩ := pushScores_sorted_perm s s.m_hypos [] (List.sorted_nil)
  simp only [List.nil_append] at hp
  change (pushScores s s.m_hypos []).Perm (candidateScores s) at hp
  have hlen := hp.length_eq
  have hpos : 0 < (candidateScores s).length := List.length_pos.mpr h
  generalize hL : pushScores s s.m_hypos [] = L at hs hp hlen
  have hk : (if n > L.length then L.length else n) = min n L.length := by
    split <;> omega
  have hi : min n L.length - 1 < L.length := by omega
  refine ⟨L[min n L.length - 1], ?_, ?_, ?_, ?_⟩
  · simp only [scoreThreshold, hL, hk, pop_iterate, PriorityQueue.top, List.head?_drop]
    exact List.getElem?_eq_getElem hi
  · exact hp.subset (List.getElem_mem hi)
  · rw [← hp.countP_eq, ← hlen]
    have := sorted_countP_gt_le L hs _ hi
    omega
  · rw [← hp.countP_eq, ← hlen]
    have := sorted_countP_ge_le L hs _ hi
    omega

theorem IsKthLargest.unique {l : List ℤ} {k : Nat} {t u : ℤ}
    (ht : IsKthLargest l k t) (hu : IsKthLargest l k u) : t = u := by
  have key : ∀ a b : ℤ, IsKthLargest l k a → IsKthLargest l k b → ¬ a < b := by
    intro a b ha hb hab
    have h1 : l.countP (fun x => decide (b ≤ x)) ≤ l.countP (fun x => decide (a < x)) := by
      apply List.countP_mono_left
      intro x _ hx
      simp only [decide_eq_true_eq] at hx ⊢
      omega
    have := ha.2.1
    have := hb.2.2
    omega
  have h1 := key t u ht hu
  have h2 := key u t hu ht
  omega

/-! ## Unfolding `PruneToSize` and `Add` -/

theorem PruneToSize_of_le (s : HypothesisStackNormal) (n : Nat) (h : ¬ s.m_hypos.length > n) :
    PruneToSize s n = .ok s := by
  simp [PruneToSize, h]

theorem PruneToSize_of_some (s : HypothesisStackNormal) (n : Nat) (t : ℤ)
    (h : s.m_hypos.length > n) (ht : scoreThreshold s n = some t) :
    PruneToSize s n = .ok (prunedAt s t) := by
  simp [PruneToSize, h, ht, prunedAt]

theorem PruneToSize_of_none (s : HypothesisStackNormal) (n : Nat)
    (h : s.m_hypos.length > n) (ht : scoreThreshold s n = none) :
    PruneToSize s n = .error Fault.emptyHeapTop := by
  simp [PruneToSize, h, ht]

theorem Add_of_some (s : HypothesisStackNormal) (hypo existing : Hypothesis)
    (h : findEquiv s hypo = some existing) : Add s hypo = .ok ((existing, false), s) := by
  simp [Add, h]

theorem Add_of_none (s : HypothesisStackNormal) (hypo : Hypothesis)
    (h : findEquiv s hypo = none) :
    Add s hypo =
      if (afterInsert s hypo).m_hypos.length > pruneLimit s.m_maxHypoStackSize then
        (PruneToSize (afterInsert s hypo) s.m_maxHypoStackSize).map (fun s3 => ((hypo, true), s3))
      else .ok ((hypo, true), afterInsert s hypo) := by
  simp only [Add, h, afterInsert]
  by_cases h1 : s.m_bestScore < (hypo.GetTotalScore : Score)
  · by_cases h2 : s.m_worstScore < (hypo.GetTotalScore : Score) + (s.m_beamWidth : Score)
    · simp [h1, h2]
    · simp [h1, h2]
  · simp [h1]

theorem findEquiv_eq_none_iff (s : HypothesisStackNormal) (hypo : Hypothesis) :
    findEquiv s hypo = none ↔ ∀ m ∈ s.m_hypos, m.key ≠ hypo.key := by
  simp [findEquiv, List.find?_eq_none]

theorem findEquiv_some (s : HypothesisStackNormal) (hypo e : Hypothesis)
    (h : findEquiv s hypo = some e) : e ∈ s.m_hypos ∧ e.key = hypo.key := by
  unfold findEquiv at h
  exact ⟨List.mem_of_find?_eq_some h, by simpa using List.find?_some h⟩

theorem pruneLimit_eq (n : Nat) (h1 : 1 ≤ n) (h2 : n < 2 ^ 63) : pruneLimit n = 2 * n - 1 := by
  unfold pruneLimit
  omega

theorem pruneLimit_pos (n : Nat) : 1 ≤ pruneLimit n := by
  unfold pruneLimit
  omega

/-! ## The five paths of `AddPrune` -/

theorem AddPrune_discard (s : HypothesisStackNormal) (hypo : Hypothesis)
    (h : (hypo.GetTotalScore : Score) < s.m_worstScore) :
    AddPrune s hypo = .ok (false, FREEHYPO
      { s with sentenceStats := { s.sentenceStats with
          m_numDiscarded := s.sentenceStats.m_numDiscarded + 1 } } hypo) := by
  simp [AddPrune, h]

theorem AddPrune_new (s : HypothesisStackNormal) (hypo : Hypothesis)
    (h1 : ¬ (hypo.GetTotalScore : Score) < s.m_worstScore) (h2 : findEquiv s hypo = none) :
    AddPrune s hypo =
      if (afterInsert s hypo).m_hypos.length > pruneLimit s.m_maxHypoStackSize then
        (PruneToSize (afterInsert s hypo) s.m_maxHypoStackSize).map (fun s3 => (true, s3))
      else .ok (true, afterInsert s hypo) := by
  simp only [AddPrune, if_neg h1, Add_of_none s hypo h2]
  by_cases hc : (afterInsert s hypo).m_hypos.length > pruneLimit s.m_maxHypoStackSize
  · simp only [if_pos hc]
    cases PruneToSize (afterInsert s hypo) s.m_maxHypoStackSize <;> rfl
  · simp only [if_neg hc]

theorem AddPrune_skip (s : HypothesisStackNormal) (hypo e : Hypothesis)
    (h1 : ¬ (hypo.GetTotalScore : Score) < s.m_worstScore) (h2 : findEquiv s hypo = some e)
    (h3 : s.useMaxentReordering = true ∧ doNotRecombine hypo e = true) :
    AddPrune s hypo = .ok (true, s) := by
  simp [AddPrune, h1, Add_of_some s hypo e h2, h3]

theorem AddPrune_lose (s : HypothesisStackNormal) (hypo e : Hypothesis)
    (h1 : ¬ (hypo.GetTotalScore : Score) < s.m_worstScore) (h2 : findEquiv s hypo = some e)
    (h3 : ¬ (s.useMaxentReordering = true ∧ doNotRecombine hypo e = true))
    (h4 : ¬ e.GetTotalScore < hypo.GetTotalScore) :
    AddPrune s hypo = .ok (false,
      if s.m_nBestIsEnabled then AddArc (countRecombination s) e hypo
      else FREEHYPO (countRecombination s) hypo) := by
  simp only [AddPrune, if_neg h1, Add_of_some s hypo e h2, if_neg h3, if_neg h4]
  by_cases hn : s.m_nBestIsEnabled = true <;> simp [hn, countRecombination]

theorem withoutExisting_fields (s : HypothesisStackNormal) (hypo e : Hypothesis) :
    (withoutExisting s hypo e).m_hypos = s.m_hypos.erase e ∧
    (withoutExisting s hypo e).m_bestScore = s.m_bestScore ∧
    (withoutExisting s hypo e).m_worstScore = s.m_worstScore ∧
    (withoutExisting s hypo e).m_beamWidth = s.m_beamWidth ∧
    (withoutExisting s hypo e).m_maxHypoStackSize = s.m_maxHypoStackSize ∧
    (withoutExisting s hypo e).m_nBestIsEnabled = s.m_nBestIsEnabled ∧
    (withoutExisting s hypo e).useMaxentReordering = s.useMaxentReordering := by
  unfold withoutExisting
  split <;> simp [Detach, Remove, AddArc, FREEHYPO, countRecombination]

theorem AddPrune_win (s : HypothesisStackNormal) (hypo e : Hypothesis)
    (h1 : ¬ (hypo.GetTotalScore : Score) < s.m_worstScore) (h2 : findEquiv s hypo = some e)
    (h3 : ¬ (s.useMaxentReordering = true ∧ doNotRecombine hypo e = true))
    (h4 : e.GetTotalScore < hypo.GetTotalScore)
    (h5 : findEquiv (withoutExisting s hypo e) hypo = none) :
    AddPrune s hypo =
      if (afterInsert (withoutExisting s hypo e) hypo).m_hypos.length
          > pruneLimit s.m_maxHypoStackSize then
        (PruneToSize (afterInsert (withoutExisting s hypo e) hypo) s.m_maxHypoStackSize).map
          (fun s3 => (false, s3))
      else .ok (false, afterInsert (withoutExisting s hypo e) hypo) := by
  have hm := (withoutExisting_fields s hypo e).2.2.2.2.1
  have ha := Add_of_none _ hypo h5
  rw [hm] at ha
  have hw : (if (countRecombination s).m_nBestIsEnabled = true then
        Detach (AddArc (countRecombination s) hypo e) e
      else Remove (countRecombination s) e) = withoutExisting s hypo e := by
    simp [withoutExisting, countRecombination]
  simp only [AddPrune, if_neg h1, Add_of_some s hypo e h2, if_neg h3, if_pos h4]
  change (match Add (if (countRecombination s).m_nBestIsEnabled = true then
        Detach (AddArc (countRecombination s) hypo e) e
      else Remove (countRecombination s) e) hypo with
    | Except.error f => (Except.error f : Except Fault (Bool × HypothesisStackNormal))
    | Except.ok ((_, false), _) => Except.error Fault.abort
    | Except.ok ((_, true), s4) => Except.ok (false, s4)) = _
  rw [hw, ha]
  by_cases hc : (afterInsert (withoutExisting s hypo e) hypo).m_hypos.length
      > pruneLimit s.m_maxHypoStackSize
  · simp only [if_pos hc]
    cases PruneToSize (afterInsert (withoutExisting s hypo e) hypo) s.m_maxHypoStackSize <;> rfl
  · simp only [if_neg hc]

/-! ## Properties of the intermediate states -/

theorem mem_afterInsert (s : HypothesisStackNormal) (hypo m : Hypothesis) :
    m ∈ (afterInsert s hypo).m_hypos ↔ m = hypo ∨ m ∈ s.m_hypos :=
  List.mem_orderedInsert _

theorem perm_afterInsert (s : HypothesisStackNormal) (hypo : Hypothesis) :
    (afterInsert s hypo).m_hypos.Perm (hypo :: s.m_hypos) :=
  List.perm_orderedInsert _ _ _

theorem afterInsert_best (s : HypothesisStackNormal) (hypo : Hypothesis) :
    (afterInsert s hypo).m_bestScore = max s.m_bestScore (hypo.GetTotalScore : Score) := by
  simp only [afterInsert]
  split
  · next h => exact (max_eq_right h.le).symm
  · next h => exact (max_eq_left (not_lt.mp h)).symm

theorem afterInsert_worst (s : HypothesisStackNormal) (hypo : Hypothesis) :
    (afterInsert s hypo).m_worstScore =
      if s.m_bestScore < (hypo.GetTotalScore : Score) then
        max s.m_worstScore ((hypo.GetTotalScore : Score) + (s.m_beamWidth : Score))
      else s.m_worstScore := by
  simp only [afterInsert]
  split
  · split
    · next h => exact (max_eq_right h.le).symm
    · next h => exact (max_eq_left (not_lt.mp h)).symm
  · rfl

theorem le_afterInsert_worst (s : HypothesisStackNormal) (hypo : Hypothesis) :
    s.m_worstScore ≤ (afterInsert s hypo).m_worstScore := by
  rw [afterInsert_worst]
  split
  · exact le_max_left _ _
  · exact le_refl _

theorem afterInsert_core (s : HypothesisStackNormal) (hypo : Hypothesis)
    (hp : PreInsert s hypo) : Core (afterInsert s hypo) := by
  have hb := afterInsert_best s hypo
  have hw := afterInsert_worst s hypo
  have hbw : (afterInsert s hypo).m_beamWidth = s.m_beamWidth := rfl
  refine ⟨?_, ?_, ?_, ?_, ?_⟩
  · have := ((perm_afterInsert s hypo).map Hypothesis.key).nodup_iff
    rw [this, List.map_cons, List.nodup_cons]
    refine ⟨?_, hp.keys⟩
    intro hmem
    obtain ⟨m, hm, hk⟩ := List.mem_map.mp hmem
    exact hp.fresh m hm hk
  · intro m hm
    rw [hb]
    rcases (mem_afterInsert s hypo m).mp hm with rfl | hm
    · exact le_max_right _ _
    · exact (hp.le_best m hm).trans (le_max_left _ _)
  · by_cases h : s.m_bestScore < (hypo.GetTotalScore : Score)
    · exact ⟨hypo, (mem_afterInsert s hypo hypo).mpr (Or.inl rfl), by
        rw [hb]; exact (max_eq_right h.le).symm⟩
    · rcases hp.attained with ⟨m, hm, he⟩ | h'
      · exact ⟨m, (mem_afterInsert s hypo m).mpr (Or.inr hm), by
          rw [hb, he]; exact (max_eq_left (not_lt.mp h)).symm⟩
      · exact absurd h' h
  · rw [hw, hb, hbw]
    by_cases h : s.m_bestScore < (hypo.GetTotalScore : Score)
    · rw [if_pos h, max_eq_right h.le]
      by_cases h2 : s.m_worstScore < (hypo.GetTotalScore : Score) + (s.m_beamWidth : Score)
      · left
        exact max_eq_right h2.le
      · rw [max_eq_left (not_lt.mp h2)]
        rcases hp.floor with hf | hf
        · exfalso
          apply h2
          rw [hf]
          have hadm := hp.admitted
          revert h hadm hf
          generalize s.m_bestScore = b
          generalize s.m_worstScore = w
          intro h hadm hf
          induction b using WithBot.recBotCoe with
          | bot => simp only [WithBot.bot_add]; exact WithBot.bot_lt_coe _
          | coe b => norm_cast at *; omega
        · right
          intro m hm
          rcases (mem_afterInsert s hypo m).mp hm with rfl | hm
          · exact not_lt.mp hp.admitted
          · exact hf m hm
    · rw [if_neg h, max_eq_left (not_lt.mp h)]
      rcases hp.floor with hf | hf
      · exact Or.inl hf
      · right
        intro m hm
        rcases (mem_afterInsert s hypo m).mp hm with rfl | hm
        · exact not_lt.mp hp.admitted
        · exact hf m hm
  · rw [hw, hb, hbw]
    by_cases h : s.m_bestScore < (hypo.GetTotalScore : Score)
    · rw [if_pos h, max_eq_right h.le]
      exact le_max_right _ _
    · rw [if_neg h, max_eq_left (not_lt.mp h)]
      exact hp.margin

theorem mem_candidateScores (s : HypothesisStackNormal) (t : ℤ) :
    t ∈ candidateScores s ↔ ∃ m ∈ s.m_hypos,
      s.m_bestScore + (s.m_beamWidth : Score) < (m.GetTotalScore : Score) ∧
      m.GetTotalScore = t := by
  simp only [candidateScores, List.mem_map, List.mem_filter, decide_eq_true_eq]
  constructor
  · rintro ⟨m, ⟨hm, hq⟩, ht⟩
    exact ⟨m, hm, hq, ht⟩
  · rintro ⟨m, hm, hq, ht⟩
    exact ⟨m, ⟨hm, hq⟩, ht⟩

theorem countP_candidateScores_gt (s : HypothesisStackNormal) (t : ℤ)
    (ht : s.m_bestScore + (s.m_beamWidth : Score) < (t : Score)) :
    (candidateScores s).countP (fun x => t < x)
      = s.m_hypos.countP (fun m => t < m.GetTotalScore) := by
  simp only [candidateScores, List.countP_map, List.countP_filter]
  apply List.countP_congr
  intro m _
  simp only [Function.comp_apply, Bool.and_eq_true, decide_eq_true_eq]
  constructor
  · exact fun h => h.1
  · intro h
    refine ⟨h, ht.trans ?_⟩
    exact_mod_cast h

theorem mem_prunedAt (s : HypothesisStackNormal) (t : ℤ) (m : Hypothesis) :
    m ∈ (prunedAt s t).m_hypos ↔ m ∈ s.m_hypos ∧ t ≤ m.GetTotalScore := by
  simp [prunedAt, List.mem_filter]

theorem prunedAt_core (s : HypothesisStackNormal) (t : ℤ) (hc : Core s)
    (ht : t ∈ candidateScores s) : Core (prunedAt s t) := by
  obtain ⟨m0, hm0, hq0, rfl⟩ := (mem_candidateScores s t).mp ht
  have hsub : (prunedAt s m0.GetTotalScore).m_hypos.Sublist s.m_hypos := List.filter_sublist _
  refine ⟨?_, ?_, ?_, ?_, ?_⟩
  · exact hc.keys.sublist (hsub.map _)
  · intro m hm
    exact hc.le_best m (hsub.subset hm)
  · obtain ⟨m, hm, he⟩ := hc.attained
    refine ⟨m, (mem_prunedAt s _ m).mpr ⟨hm, ?_⟩, he⟩
    have h1 := hc.le_best m0 hm0
    change _ ≤ s.m_bestScore at h1
    rw [← he] at h1
    exact_mod_cast h1
  · right
    intro m hm
    have := ((mem_prunedAt s _ m).mp hm).2
    change ((m0.GetTotalScore : ℤ) : Score) ≤ _
    exact_mod_cast this
  · exact hq0.le

theorem prunedAt_bound (s : HypothesisStackNormal) (t : ℤ) (k : Nat)
    (ht : IsKthLargest (candidateScores s) k t) (hk : k ≤ s.m_maxHypoStackSize) :
    (∀ m ∈ (prunedAt s t).m_hypos, (prunedAt s t).m_worstScore ≤ (m.GetTotalScore : Score)) ∧
    (prunedAt s t).m_hypos.countP
        (fun m => (prunedAt s t).m_worstScore < (m.GetTotalScore : Score)) + 1
      ≤ (prunedAt s t).m_maxHypoStackSize ∧
    (prunedAt s t).m_bestScore + ((prunedAt s t).m_beamWidth : Score)
      < (prunedAt s t).m_worstScore := by
  obtain ⟨m0, _, hq0, he0⟩ := (mem_candidateScores s t).mp ht.1
  have hq : s.m_bestScore + (s.m_beamWidth : Score) < (t : Score) := by rw [← he0]; exact hq0
  refine ⟨?_, ?_, hq⟩
  · intro m hm
    have := ((mem_prunedAt s _ m).mp hm).2
    change (t : Score) ≤ _
    exact_mod_cast this
  · have h1 : (prunedAt s t).m_hypos.countP (fun m => decide ((t : Score) < (m.GetTotalScore : Score)))
        ≤ s.m_hypos.countP (fun m => decide (t < m.GetTotalScore)) := by
      refine (List.Sublist.countP_le _ (List.filter_sublist _)).trans (le_of_eq ?_)
      apply List.countP_congr
      intro m _
      simp
    have h2 := countP_candidateScores_gt s t hq
    have h3 := ht.2.1
    change (prunedAt s t).m_hypos.countP
      (fun m => decide ((t : Score) < (m.GetTotalScore : Score))) + 1 ≤ s.m_maxHypoStackSize
    omega

/-- The two ways the insertion path returns: below the lazy limit the state after the
insertion, above it that state pruned at the threshold. -/
theorem insertResult_cases (s s' : HypothesisStackNormal) (hypo : Hypothesis)
    (h1 : 1 ≤ s.m_maxHypoStackSize) (h2 : s.m_maxHypoStackSize < 2 ^ 63)
    (h : insertResult s hypo = .ok s') :
    (s' = afterInsert s hypo ∧ s'.m_hypos.length ≤ pruneLimit s.m_maxHypoStackSize) ∨
    (pruneLimit s.m_maxHypoStackSize < (afterInsert s hypo).m_hypos.length ∧
      ∃ t, s' = prunedAt (afterInsert s hypo) t ∧
      IsKthLargest (candidateScores (afterInsert s hypo))
        (min s.m_maxHypoStackSize (candidateScores (afterInsert s hypo)).length) t) := by
  unfold insertResult at h
  by_cases hc : (afterInsert s hypo).m_hypos.length > pruneLimit s.m_maxHypoStackSize
  · rw [if_pos hc] at h
    right
    refine ⟨hc, ?_⟩
    have hgt : (afterInsert s hypo).m_hypos.length > s.m_maxHypoStackSize := by
      rw [pruneLimit_eq _ h1 h2] at hc
      omega
    by_cases hq : candidateScores (afterInsert s hypo) = []
    · rw [PruneToSize_of_none _ _ hgt (scoreThreshold_eq_none _ _ hq)] at h
      cases h
    · obtain ⟨t, ht, hk⟩ := scoreThreshold_spec (afterInsert s hypo) _ h1 hq
      rw [PruneToSize_of_some _ _ t hgt ht] at h
      exact ⟨t, (Except.ok.inj h).symm, hk⟩
  · rw [if_neg hc] at h
    left
    have := (Except.ok.inj h).symm
    subst this
    exact ⟨rfl, not_lt.mp hc⟩

theorem AddPrune_new_eq (s : HypothesisStackNormal) (hypo : Hypothesis)
    (h1 : ¬ (hypo.GetTotalScore : Score) < s.m_worstScore) (h2 : findEquiv s hypo = none) :
    AddPrune s hypo = (insertResult s hypo).map (fun s3 => (true, s3)) := by
  rw [AddPrune_new s hypo h1 h2]
  unfold insertResult
  split <;> rfl

theorem AddPrune_win_eq (s : HypothesisStackNormal) (hypo e : Hypothesis)
    (h1 : ¬ (hypo.GetTotalScore : Score) < s.m_worstScore) (h2 : findEquiv s hypo = some e)
    (h3 : ¬ (s.useMaxentReordering = true ∧ doNotRecombine hypo e = true))
    (h4 : e.GetTotalScore < hypo.GetTotalScore)
    (h5 : findEquiv (withoutExisting s hypo e) hypo = none) :
    AddPrune s hypo
      = (insertResult (withoutExisting s hypo e) hypo).map (fun s3 => (false, s3)) := by
  rw [AddPrune_win s hypo e h1 h2 h3 h4 h5]
  unfold insertResult
  rw [(withoutExisting_fields s hypo e).2.2.2.2.1]
  split <;> rfl

theorem findEquiv_withoutExisting (s : HypothesisStackNormal) (hypo e : Hypothesis)
    (hk : (s.m_hypos.map Hypothesis.key).Nodup) (h2 : findEquiv s hypo = some e) :
    findEquiv (withoutExisting s hypo e) hypo = none := by
  obtain ⟨he, hke⟩ := findEquiv_some s hypo e h2
  rw [findEquiv_eq_none_iff, (withoutExisting_fields s hypo e).1]
  intro m hm hkm
  have hnd : s.m_hypos.Nodup := List.Nodup.of_map _ hk
  have hm' : m ∈ s.m_hypos := List.mem_of_mem_erase hm
  have : m = e := List.inj_on_of_nodup_map hk hm' he (hkm.trans hke.symm)
  subst this
  exact (List.Nodup.not_mem_erase hnd) hm

/-- The paths through `AddPrune` that return, with the state each one leaves. -/
theorem AddPrune_cases (s s' : HypothesisStackNormal) (hypo : Hypothesis) (r : Bool)
    (hk : (s.m_hypos.map Hypothesis.key).Nodup) (h : AddPrune s hypo = .ok (r, s')) :
    ((hypo.GetTotalScore : Score) < s.m_worstScore ∧ r = false ∧
      s' = FREEHYPO { s with sentenceStats := { s.sentenceStats with
          m_numDiscarded := s.sentenceStats.m_numDiscarded + 1 } } hypo) ∨
    (¬ (hypo.GetTotalScore : Score) < s.m_worstScore ∧ findEquiv s hypo = none ∧ r = true ∧
      insertResult s hypo = .ok s') ∨
    (∃ e, ¬ (hypo.GetTotalScore : Score) < s.m_worstScore ∧ findEquiv s hypo = some e ∧
      (((s.useMaxentReordering = true ∧ doNotRecombine hypo e = true) ∧ r = true ∧ s' = s) ∨
       (¬ (s.useMaxentReordering = true ∧ doNotRecombine hypo e = true) ∧
          ¬ e.GetTotalScore < hypo.GetTotalScore ∧ r = false ∧
          s' = if s.m_nBestIsEnabled then AddArc (countRecombination s) e hypo
               else FREEHYPO (countRecombination s) hypo) ∨
       (¬ (s.useMaxentReordering = true ∧ doNotRecombine hypo e = true) ∧
          e.GetTotalScore < hypo.GetTotalScore ∧ r = false ∧
          insertResult (withoutExisting s hypo e) hypo = .ok s'))) := by
  by_cases h1 : (hypo.GetTotalScore : Score) < s.m_worstScore
  · left
    rw [AddPrune_discard s hypo h1] at h
    have := Except.ok.inj h
    exact ⟨h1, (Prod.mk.inj this).1.symm, (Prod.mk.inj this).2.symm⟩
  · right
    cases h2 : findEquiv s hypo with
    | none =>
      left
      rw [AddPrune_new_eq s hypo h1 h2] at h
      cases hr : insertResult s hypo with
      | error f => rw [hr] at h; cases h
      | ok s3 =>
        rw [hr] at h
        have := Except.ok.inj h
        exact ⟨h1, rfl, (Prod.mk.inj this).1.symm, by rw [(Prod.mk.inj this).2]⟩
    | some e =>
      right
      refine ⟨e, h1, rfl, ?_⟩
      by_cases h3 : s.useMaxentReordering = true ∧ doNotRecombine hypo e = true
      · left
        rw [AddPrune_skip s hypo e h1 h2 h3] at h
        have := Except.ok.inj h
        exact ⟨h3, (Prod.mk.inj this).1.symm, (Prod.mk.inj this).2.symm⟩
      · right
        by_cases h4 : e.GetTotalScore < hypo.GetTotalScore
        · right
          rw [AddPrune_win_eq s hypo e h1 h2 h3 h4 (findEquiv_withoutExisting s hypo e hk h2)] at h
          cases hr : insertResult (withoutExisting s hypo e) hypo with
          | error f => rw [hr] at h; cases h
          | ok s3 =>
            rw [hr] at h
            have := Except.ok.inj h
            exact ⟨h3, h4, (Prod.mk.inj this).1.symm, by rw [(Prod.mk.inj this).2]⟩
        · left
          rw [AddPrune_lose s hypo e h1 h2 h3 h4] at h
          have := Except.ok.inj h
          exact ⟨h3, h4, (Prod.mk.inj this).1.symm, (Prod.mk.inj this).2.symm⟩

/-! ## Preservation of the invariants -/

theorem Core.toInv {s : HypothesisStackNormal} (hc : Core s)
    (hb : s.m_hypos.length ≤ pruneLimit s.m_maxHypoStackSize ∨
      ((∀ m ∈ s.m_hypos, s.m_worstScore ≤ (m.GetTotalScore : Score)) ∧
        s.m_hypos.countP (fun m => s.m_worstScore < (m.GetTotalScore : Score)) + 1
          ≤ s.m_maxHypoStackSize ∧
        s.m_bestScore + (s.m_beamWidth : Score) < s.m_worstScore)) : Inv s :=
  ⟨hc.keys, hc.le_best, Or.inr hc.attained, hc.floor, hc.margin, hb⟩

theorem Inv.of_fields {s s' : HypothesisStackNormal} (hi : Inv s)
    (h1 : s'.m_hypos = s.m_hypos) (h2 : s'.m_bestScore = s.m_bestScore)
    (h3 : s'.m_worstScore = s.m_worstScore) (h4 : s'.m_beamWidth = s.m_beamWidth)
    (h5 : s'.m_maxHypoStackSize = s.m_maxHypoStackSize) : Inv s' := by
  obtain ⟨a, b, c, d, e, f⟩ := hi
  constructor
  · rw [h1]; exact a
  · rw [h1, h2]; exact b
  · rw [h1, h2, h3]; exact c
  · rw [h1, h2, h3, h4]; exact d
  · rw [h2, h3, h4]; exact e
  · rw [h1, h2, h3, h4, h5]; exact f

theorem insertResult_inv (s s' : HypothesisStackNormal) (hypo : Hypothesis)
    (hp : PreInsert s hypo) (h1 : 1 ≤ s.m_maxHypoStackSize) (h2 : s.m_maxHypoStackSize < 2 ^ 63)
    (h : insertResult s hypo = .ok s') : Inv s' := by
  have hc := afterInsert_core s hypo hp
  rcases insertResult_cases s s' hypo h1 h2 h with ⟨rfl, hl⟩ | ⟨_, t, rfl, ht⟩
  · exact hc.toInv (Or.inl hl)
  · exact (prunedAt_core _ t hc ht.1).toInv
      (Or.inr (prunedAt_bound _ t _ ht (Nat.min_le_left _ _)))

theorem insertResult_worst_mono (s s' : HypothesisStackNormal) (hypo : Hypothesis)
    (hp : PreInsert s hypo) (h1 : 1 ≤ s.m_maxHypoStackSize) (h2 : s.m_maxHypoStackSize < 2 ^ 63)
    (h : insertResult s hypo = .ok s') : s.m_worstScore ≤ s'.m_worstScore := by
  have hc := afterInsert_core s hypo hp
  rcases insertResult_cases s s' hypo h1 h2 h with ⟨rfl, _⟩ | ⟨_, t, rfl, ht⟩
  · exact le_afterInsert_worst s hypo
  · refine (le_afterInsert_worst s hypo).trans ?_
    obtain ⟨m, hm, hq, he⟩ := (mem_candidateScores _ t).mp ht.1
    change (afterInsert s hypo).m_worstScore ≤ (t : Score)
    rw [← he]
    rcases hc.floor with hf | hf
    · rw [hf]; exact hq.le
    · exact hf m hm

theorem preInsert_of_inv_new (s : HypothesisStackNormal) (hypo : Hypothesis) (hi : Inv s)
    (h1 : ¬ (hypo.GetTotalScore : Score) < s.m_worstScore) (h2 : findEquiv s hypo = none) :
    PreInsert s hypo := by
  refine ⟨hi.keys, (findEquiv_eq_none_iff s hypo).mp h2, hi.le_best, ?_, hi.floor, hi.margin, h1⟩
  rcases hi.attained with ⟨_, hb, _⟩ | h
  · right
    rw [hb]
    exact WithBot.bot_lt_coe _
  · exact Or.inl h

theorem preInsert_of_inv_win (s : HypothesisStackNormal) (hypo e : Hypothesis) (hi : Inv s)
    (h1 : ¬ (hypo.GetTotalScore : Score) < s.m_worstScore) (h2 : findEquiv s hypo = some e)
    (h4 : e.GetTotalScore < hypo.GetTotalScore) :
    PreInsert (withoutExisting s hypo e) hypo := by
  obtain ⟨hm, hb, hw, hbw, _, _, _⟩ := withoutExisting_fields s hypo e
  have hsub : (withoutExisting s hypo e).m_hypos.Sublist s.m_hypos := by
    rw [hm]; exact List.erase_sublist _ _
  refine ⟨hi.keys.sublist (hsub.map _), ?_, ?_, ?_, ?_, ?_, ?_⟩
  · exact (findEquiv_eq_none_iff _ hypo).mp (findEquiv_withoutExisting s hypo e hi.keys h2)
  · intro m hmem
    rw [hb]
    exact hi.le_best m (hsub.subset hmem)
  · rw [hb]
    rcases hi.attained with ⟨hnil, _, _⟩ | ⟨m, hmem, he⟩
    · have := (findEquiv_some s hypo e h2).1
      rw [hnil] at this
      cases this
    · by_cases hme : m = e
      · right
        rw [← he, hme]
        exact_mod_cast h4
      · left
        refine ⟨m, ?_, he⟩
        rw [hm]
        exact (List.mem_erase_of_ne hme).mpr hmem
  · rw [hw, hb, hbw]
    rcases hi.floor with hf | hf
    · exact Or.inl hf
    · exact Or.inr (fun m hmem => hf m (hsub.subset hmem))
  · rw [hw, hb, hbw]
    exact hi.margin
  · rw [hw]
    exact h1

theorem new_inv (beamWidth : ℤ) (maxHypoStackSize : Nat) (nBest maxent : Bool) :
    Inv (new beamWidth maxHypoStackSize nBest maxent) := by
  refine ⟨?_, ?_, ?_, ?_, ?_, ?_⟩
  · simp [new]
  · simp [new]
  · exact Or.inl ⟨rfl, rfl, rfl⟩
  · left
    simp [new]
  · simp [new]
  · left
    simp [new]

theorem AddPrune_inv (s s' : HypothesisStackNormal) (hypo : Hypothesis) (r : Bool)
    (hi : Inv s) (h1 : 1 ≤ s.m_maxHypoStackSize) (h2 : s.m_maxHypoStackSize < 2 ^ 63)
    (h : AddPrune s hypo = .ok (r, s')) : Inv s' := by
  rcases AddPrune_cases s s' hypo r hi.keys h with
    ⟨_, _, rfl⟩ | ⟨ha, hf, _, hr⟩ | ⟨e, ha, hf, ⟨_, _, rfl⟩ | ⟨_, _, _, rfl⟩ | ⟨_, hlt, _, hr⟩⟩
  · exact hi.of_fields rfl rfl rfl rfl rfl
  · exact insertResult_inv s s' hypo (preInsert_of_inv_new s hypo hi ha hf) h1 h2 hr
  · exact hi
  · split
    · exact hi.of_fields rfl rfl rfl rfl rfl
    · exact hi.of_fields rfl rfl rfl rfl rfl
  · have hmx := (withoutExisting_fields s hypo e).2.2.2.2.1
    exact insertResult_inv _ s' hypo (preInsert_of_inv_win s hypo e hi ha hf hlt)
      (by rw [hmx]; exact h1) (by rw [hmx]; exact h2) hr

theorem insertResult_config (s s' : HypothesisStackNormal) (hypo : Hypothesis)
    (h1 : 1 ≤ s.m_maxHypoStackSize) (h2 : s.m_maxHypoStackSize < 2 ^ 63)
    (h : insertResult s hypo = .ok s') : SameConfig s s' := by
  rcases insertResult_cases s s' hypo h1 h2 h with ⟨rfl, _⟩ | ⟨_, t, rfl, _⟩
  · exact ⟨rfl, rfl, rfl, rfl⟩
  · exact ⟨rfl, rfl, rfl, rfl⟩

theorem AddPrune_config (s s' : HypothesisStackNormal) (hypo : Hypothesis) (r : Bool)
    (hk : (s.m_hypos.map Hypothesis.key).Nodup)
    (h1 : 1 ≤ s.m_maxHypoStackSize) (h2 : s.m_maxHypoStackSize < 2 ^ 63)
    (h : AddPrune s hypo = .ok (r, s')) : SameConfig s s' := by
  rcases AddPrune_cases s s' hypo r hk h with
    ⟨_, _, rfl⟩ | ⟨_, _, _, hr⟩ | ⟨e, _, _, ⟨_, _, rfl⟩ | ⟨_, _, _, rfl⟩ | ⟨_, _, _, hr⟩⟩
  · exact ⟨rfl, rfl, rfl, rfl⟩
  · exact insertResult_config s s' hypo h1 h2 hr
  · exact ⟨rfl, rfl, rfl, rfl⟩
  · split <;> exact ⟨rfl, rfl, rfl, rfl⟩
  · obtain ⟨_, _, _, hbw, hmx, hnb, hme⟩ := withoutExisting_fields s hypo e
    obtain ⟨a, b, c, d⟩ := insertResult_config _ s' hypo
      (by rw [hmx]; exact h1) (by rw [hmx]; exact h2) hr
    exact ⟨a.trans hbw, b.trans hmx, c.trans hnb, d.trans hme⟩

theorem AddPrune_worst_mono (s s' : HypothesisStackNormal) (hypo : Hypothesis) (r : Bool)
    (hi : Inv s) (h1 : 1 ≤ s.m_maxHypoStackSize) (h2 : s.m_maxHypoStackSize < 2 ^ 63)
    (h : AddPrune s hypo = .ok (r, s')) : s.m_worstScore ≤ s'.m_worstScore := by
  rcases AddPrune_cases s s' hypo r hi.keys h with
    ⟨_, _, rfl⟩ | ⟨ha, hf, _, hr⟩ | ⟨e, ha, hf, ⟨_, _, rfl⟩ | ⟨_, _, _, rfl⟩ | ⟨_, hlt, _, hr⟩⟩
  · exact le_refl _
  · exact insertResult_worst_mono s s' hypo (preInsert_of_inv_new s hypo hi ha hf) h1 h2 hr
  · exact le_refl _
  · split <;> exact le_refl _
  · obtain ⟨_, _, hw, _, hmx, _, _⟩ := withoutExisting_fields s hypo e
    rw [← hw]
    exact insertResult_worst_mono _ s' hypo (preInsert_of_inv_win s hypo e hi ha hf hlt)
      (by rw [hmx]; exact h1) (by rw [hmx]; exact h2) hr

/-- A run that returns preserves the invariants and the configuration. -/
theorem AddPruneAll_inv : ∀ (hypos : List Hypothesis) (s s' : HypothesisStackNormal),
    Inv s → 1 ≤ s.m_maxHypoStackSize → s.m_maxHypoStackSize < 2 ^ 63 →
    AddPruneAll s hypos = .ok s' → Inv s' ∧ SameConfig s s'
  | [], s, s', hi, _, _, h => by
    have := Except.ok.inj h
    subst this
    exact ⟨hi, rfl, rfl, rfl, rfl⟩
  | hypo :: rest, s, s', hi, h1, h2, h => by
    simp only [AddPruneAll] at h
    cases hr : AddPrune s hypo with
    | error f => rw [hr] at h; cases h
    | ok p =>
      obtain ⟨r, s1⟩ := p
      rw [hr] at h
      have hi1 := AddPrune_inv s s1 hypo r hi h1 h2 hr
      obtain ⟨a, b, c, d⟩ := AddPrune_config s s1 hypo r hi.keys h1 h2 hr
      obtain ⟨hi', a', b', c', d'⟩ := AddPruneAll_inv rest s1 s' hi1
        (by rw [b]; exact h1) (by rw [b]; exact h2) h
      exact ⟨hi', a'.trans a, b'.trans b, c'.trans c, d'.trans d⟩

theorem Reachable.inv {beamWidth : ℤ} {maxHypoStackSize : Nat} {nBest maxent : Bool}
    {s : HypothesisStackNormal} (hr : Reachable beamWidth maxHypoStackSize nBest maxent s)
    (h1 : 1 ≤ maxHypoStackSize) (h2 : maxHypoStackSize < 2 ^ 63) :
    Inv s ∧ s.m_beamWidth = beamWidth ∧ s.m_maxHypoStackSize = maxHypoStackSize ∧
      s.m_nBestIsEnabled = nBest ∧ s.useMaxentReordering = maxent := by
  obtain ⟨hypos, h⟩ := hr
  exact AddPruneAll_inv hypos _ s (new_inv _ _ _ _) h1 h2 h

/-- Running one more call from a reachable state gives a reachable state. -/
theorem AddPruneAll_append : ∀ (l : List Hypothesis) (s s1 : HypothesisStackNormal)
    (hypo : Hypothesis) (r : Bool) (s' : HypothesisStackNormal),
    AddPruneAll s l = .ok s1 → AddPrune s1 hypo = .ok (r, s') →
    AddPruneAll s (l ++ [hypo]) = .ok s'
  | [], s, s1, hypo, r, s', h, h' => by
    have := Except.ok.inj h
    subst this
    simp [AddPruneAll, h']
  | a :: l, s, s1, hypo, r, s', h, h' => by
    simp only [AddPruneAll, List.cons_append] at h ⊢
    cases hr : AddPrune s a with
    | error f => rw [hr] at h; cases h
    | ok p =>
      rw [hr] at h
      exact AddPruneAll_append l p.2 s1 hypo r s' h h'

/-! ## Recombination on a fresh stack -/

theorem AddPrune_fresh (beamWidth : ℤ) (maxHypoStackSize : Nat) (nBest maxent : Bool)
    (a : Hypothesis) :
    AddPrune (new beamWidth maxHypoStackSize nBest maxent) a
      = .ok (true, afterInsert (new beamWidth maxHypoStackSize nBest maxent) a) := by
  rw [AddPrune_new_eq _ _ (by simp [new]) (by simp [findEquiv, new])]
  unfold insertResult
  rw [if_neg]
  · rfl
  · have := pruneLimit_pos maxHypoStackSize
    simp only [afterInsert, new, List.orderedInsert, List.length_singleton, gt_iff_lt, not_lt]
    exact this

theorem afterInsert_fresh (beamWidth : ℤ) (maxHypoStackSize : Nat) (nBest maxent : Bool)
    (a : Hypothesis) :
    afterInsert (new beamWidth maxHypoStackSize nBest maxent) a =
      { new beamWidth maxHypoStackSize nBest maxent with
        m_hypos := [a]
        m_bestScore := (a.GetTotalScore : Score)
        m_worstScore := (a.GetTotalScore : Score) + (beamWidth : Score) } := by
  simp [afterInsert, new]

/-! ## The winner of a recombination survives its re-insertion -/

theorem findEquiv_of_mem (s : HypothesisStackNormal) (hypo e : Hypothesis)
    (hk : (s.m_hypos.map Hypothesis.key).Nodup) (he : e ∈ s.m_hypos) (hkey : e.key = hypo.key) :
    findEquiv s hypo = some e := by
  cases hf : findEquiv s hypo with
  | none => exact absurd hkey ((findEquiv_eq_none_iff s hypo).mp hf e he)
  | some e' =>
    obtain ⟨he', hk'⟩ := findEquiv_some s hypo e' hf
    rw [List.inj_on_of_nodup_map hk he' he (hk'.trans hkey.symm)]

theorem insertResult_arcs (s s' : HypothesisStackNormal) (hypo : Hypothesis)
    (h1 : 1 ≤ s.m_maxHypoStackSize) (h2 : s.m_maxHypoStackSize < 2 ^ 63)
    (h : insertResult s hypo = .ok s') : s'.arcs = s.arcs := by
  rcases insertResult_cases s s' hypo h1 h2 h with ⟨rfl, _⟩ | ⟨_, t, rfl, _⟩ <;> rfl

/-- In a state that satisfies the invariants, a hypothesis that beats the member of its key
is a member after the re-insertion whenever the re-insertion returns, also when it
prunes. -/
theorem win_survives (s : HypothesisStackNormal) (hypo e : Hypothesis) (hi : Inv s)
    (h1 : 1 ≤ s.m_maxHypoStackSize) (h2 : s.m_maxHypoStackSize < 2 ^ 63)
    (hf : findEquiv s hypo = some e)
    (h4 : e.GetTotalScore < hypo.GetTotalScore) (s' : HypothesisStackNormal)
    (hs' : insertResult (withoutExisting s hypo e) hypo = .ok s') : hypo ∈ s'.m_hypos := by
  obtain ⟨hWm, hWb, hWw, hWbw, hWmx, _, _⟩ := withoutExisting_fields s hypo e
  obtain ⟨he, _⟩ := findEquiv_some s hypo e hf
  have hlen : (afterInsert (withoutExisting s hypo e) hypo).m_hypos.length = s.m_hypos.length := by
    rw [(perm_afterInsert _ hypo).length_eq, List.length_cons, hWm, List.length_erase_of_mem he]
    have := List.length_pos_of_mem he
    omega
  rcases insertResult_cases _ s' hypo (by rw [hWmx]; exact h1) (by rw [hWmx]; exact h2) hs'
    with ⟨rfl, _⟩ | ⟨hover, t, rfl, ht⟩
  · exact (mem_afterInsert _ _ _).mpr (Or.inl rfl)
  · rw [hlen, hWmx] at hover
    rcases hi.bound with hb | ⟨hall, hcnt, hmar⟩
    · omega
    · have hwe := hall e he
      have hbe := hi.le_best e he
      have hbw : s.m_beamWidth < 0 := by
        revert hmar hwe hbe
        generalize s.m_bestScore = b
        generalize s.m_worstScore = w
        intro hmar hwe hbe
        induction b using WithBot.recBotCoe with
        | bot => simp at hbe
        | coe b =>
          induction w using WithBot.recBotCoe with
          | bot => simp at hmar
          | coe w => norm_cast at *; omega
      refine (mem_prunedAt _ t hypo).mpr ⟨(mem_afterInsert _ _ _).mpr (Or.inl rfl), ?_⟩
      by_contra hlt
      have hlt : hypo.GetTotalScore < t := not_le.mp hlt
      have hq : (afterInsert (withoutExisting s hypo e) hypo).m_bestScore
          + ((afterInsert (withoutExisting s hypo e) hypo).m_beamWidth : Score)
          < (hypo.GetTotalScore : Score) := by
        rw [afterInsert_best, hWb]
        change max s.m_bestScore _ + ((withoutExisting s hypo e).m_beamWidth : Score) < _
        rw [hWbw]
        have h4' : (e.GetTotalScore : Score) < (hypo.GetTotalScore : Score) := by exact_mod_cast h4
        by_cases hc : s.m_bestScore < (hypo.GetTotalScore : Score)
        · rw [max_eq_right hc.le]
          norm_cast
          omega
        · rw [max_eq_left (not_lt.mp hc)]
          exact hmar.trans_le (hwe.trans h4'.le)
      have hmemQ : hypo.GetTotalScore ∈ candidateScores (afterInsert (withoutExisting s hypo e) hypo) :=
        (mem_candidateScores _ _).mpr ⟨hypo, (mem_afterInsert _ _ _).mpr (Or.inl rfl), hq, rfl⟩
      have c1 := countP_candidateScores_gt _ hypo.GetTotalScore hq
      have c2 : (afterInsert (withoutExisting s hypo e) hypo).m_hypos.countP
            (fun m => decide (hypo.GetTotalScore < m.GetTotalScore))
          ≤ s.m_hypos.countP (fun m => decide (s.m_worstScore < (m.GetTotalScore : Score))) := by
        rw [(perm_afterInsert _ hypo).countP_eq, List.countP_cons_of_neg _ _ (by simp), hWm]
        refine (List.Sublist.countP_le _ (List.erase_sublist _ _)).trans ?_
        apply List.countP_mono_left
        intro m _ hm
        simp only [decide_eq_true_eq] at hm ⊢
        have h4' : (hypo.GetTotalScore : Score) < (m.GetTotalScore : Score) := by exact_mod_cast hm
        have h5' : (e.GetTotalScore : Score) < (hypo.GetTotalScore : Score) := by exact_mod_cast h4
        exact hwe.trans_lt (h5'.trans h4')
      have c3 : (candidateScores (afterInsert (withoutExisting s hypo e) hypo)).countP
            (fun x => decide (t ≤ x))
          ≤ (candidateScores (afterInsert (withoutExisting s hypo e) hypo)).countP
            (fun x => decide (hypo.GetTotalScore < x)) := by
        apply List.countP_mono_left
        intro x _ hx
        simp only [decide_eq_true_eq] at hx ⊢
        omega
      have c4 := ht.2.2
      have c5 := List.countP_le_length (fun x => decide (t ≤ x))
        (l := candidateScores (afterInsert (withoutExisting s hypo e) hypo))
      have c6 : (candidateScores (afterInsert (withoutExisting s hypo e) hypo)).countP
          (fun x => decide (t ≤ x))
          = (candidateScores (afterInsert (withoutExisting s hypo e) hypo)).length := by
        rw [hWmx] at c4
        omega
      have := (List.countP_eq_length.mp c6) _ hmemQ
      simp only [decide_eq_true_eq] at this
      omega

/-! ## The reordering exception -/

theorem doNotRecombine_iff (hypo e : Hypothesis) :
    doNotRecombine hypo e = true ↔ ReorderingException hypo e := by
  unfold doNotRecombine ReorderingException FollowsGap
  simp only [Nat.pos_iff_ne_zero, Bool.not_eq_true]
  by_cases h1 : e.GetCurrSourceWordsRange.GetStartPos ≠ 0 ∧
      e.GetWordsBitmap.GetValue (e.GetCurrSourceWordsRange.GetStartPos - 1) = false
  · by_cases h3 : hypo.GetCurrSourceWordsRange.GetNumWordsCovered
        ≠ e.GetCurrSourceWordsRange.GetNumWordsCovered
    · simp [h1, h3]
    · simp [h1, h3]
  · by_cases h2 : hypo.GetCurrSourceWordsRange.GetStartPos ≠ 0 ∧
        hypo.GetWordsBitmap.GetValue (hypo.GetCurrSourceWordsRange.GetStartPos - 1) = false
    · by_cases h3 : hypo.GetCurrSourceWordsRange.GetNumWordsCovered
          ≠ e.GetCurrSourceWordsRange.GetNumWordsCovered
      · simp [h1, h2, h3]
      · simp [h1, h2, h3]
    · simp [h1, h2]

theorem AddPrune_recombine_ne (s : HypothesisStackNormal) (hypo e : Hypothesis)
    (h1 : ¬ (hypo.GetTotalScore : Score) < s.m_worstScore) (h2 : findEquiv s hypo = some e)
    (h3 : ¬ (s.useMaxentReordering = true ∧ doNotRecombine hypo e = true))
    (s' : HypothesisStackNormal) : AddPrune s hypo ≠ .ok (true, s') := by
  by_cases h4 : e.GetTotalScore < hypo.GetTotalScore
  · simp only [AddPrune, if_neg h1, Add_of_some s hypo e h2, if_neg h3, if_pos h4]
    split
    · intro h; cases h
    · intro h; cases h
    · intro h; cases h
  · rw [AddPrune_lose s hypo e h1 h2 h3 h4]
    intro h
    cases h

/-- What `PruneToSize` does past the size guard when some member is above the beam margin. -/
theorem PruneToSize_spec (s : HypothesisStackNormal) (n : Nat) (hn : 1 ≤ n)
    (hsz : n < s.m_hypos.length)
    (hq : ∃ m ∈ s.m_hypos, s.m_bestScore + (s.m_beamWidth : Score) < (m.GetTotalScore : Score)) :
    ∃ t, PruneToSize s n = .ok (prunedAt s t) ∧
      IsKthLargest (candidateScores s) (min n (candidateScores s).length) t := by
  obtain ⟨m, hm, hmq⟩ := hq
  have hne : candidateScores s ≠ [] :=
    List.ne_nil_of_mem ((mem_candidateScores s _).mpr ⟨m, hm, hmq, rfl⟩)
  obtain ⟨t, ht, hk⟩ := scoreThreshold_spec s n hn hne
  exact ⟨t, PruneToSize_of_some s n t hsz ht, hk⟩

theorem AddPruneAll_two (s s1 s2 : HypothesisStackNormal) (a b : Hypothesis) (r1 r2 : Bool)
    (h1 : AddPrune s a = .ok (r1, s1)) (h2 : AddPrune s1 b = .ok (r2, s2)) :
    AddPruneAll s [a, b] = .ok s2 := by
  simp only [AddPruneAll, h1, h2]

/-! ## Further facts used by the invariants over runs -/

theorem PruneToSize_ok_cases (s s' : HypothesisStackNormal) (n : Nat)
    (h : PruneToSize s n = .ok s') : s' = s ∨ ∃ t, s' = prunedAt s t := by
  by_cases hgt : s.m_hypos.length > n
  · cases ht : scoreThreshold s n with
    | none => rw [PruneToSize_of_none s n hgt ht] at h; cases h
    | some t =>
      rw [PruneToSize_of_some s n t hgt ht] at h
      exact Or.inr ⟨t, (Except.ok.inj h).symm⟩
  · rw [PruneToSize_of_le s n hgt] at h
    exact Or.inl (Except.ok.inj h).symm

theorem PruneToSize_ne_abort (s : HypothesisStackNormal) (n : Nat) :
    PruneToSize s n ≠ .error Fault.abort := by
  by_cases hgt : s.m_hypos.length > n
  · cases ht : scoreThreshold s n with
    | none => rw [PruneToSize_of_none s n hgt ht]; intro h; cases h
    | some t => rw [PruneToSize_of_some s n t hgt ht]; intro h; cases h
  · rw [PruneToSize_of_le s n hgt]; intro h; cases h

theorem insertResult_ne_abort (s : HypothesisStackNormal) (hypo : Hypothesis) :
    insertResult s hypo ≠ .error Fault.abort := by
  unfold insertResult
  split
  · exact PruneToSize_ne_abort _ _
  · intro h; cases h

theorem insertResult_sublist (s s' : HypothesisStackNormal) (hypo : Hypothesis)
    (h : insertResult s hypo = .ok s') : s'.m_hypos.Sublist (afterInsert s hypo).m_hypos := by
  unfold insertResult at h
  split at h
  · rcases PruneToSize_ok_cases _ s' _ h with rfl | ⟨t, rfl⟩
    · exact List.Sublist.refl _
    · exact List.filter_sublist _
  · rw [← Except.ok.inj h]

theorem insertResult_best (s s' : HypothesisStackNormal) (hypo : Hypothesis)
    (h : insertResult s hypo = .ok s') :
    s'.m_bestScore = max s.m_bestScore (hypo.GetTotalScore : Score) := by
  unfold insertResult at h
  split at h
  · rcases PruneToSize_ok_cases _ s' _ h with rfl | ⟨t, rfl⟩
    · exact afterInsert_best s hypo
    · exact afterInsert_best s hypo
  · rw [← Except.ok.inj h]
    exact afterInsert_best s hypo

theorem keys_afterInsert (s : HypothesisStackNormal) (hypo : Hypothesis)
    (hk : (s.m_hypos.map Hypothesis.key).Nodup) (hf : findEquiv s hypo = none) :
    ((afterInsert s hypo).m_hypos.map Hypothesis.key).Nodup := by
  have := ((perm_afterInsert s hypo).map Hypothesis.key).nodup_iff
  rw [this, List.map_cons, List.nodup_cons]
  refine ⟨?_, hk⟩
  intro hmem
  obtain ⟨m, hm, hkm⟩ := List.mem_map.mp hmem
  exact (findEquiv_eq_none_iff s hypo).mp hf m hm hkm

/-- Key uniqueness is preserved by every call that returns, whatever the configuration. -/
theorem AddPrune_keys (s s' : HypothesisStackNormal) (hypo : Hypothesis) (r : Bool)
    (hk : (s.m_hypos.map Hypothesis.key).Nodup) (h : AddPrune s hypo = .ok (r, s')) :
    (s'.m_hypos.map Hypothesis.key).Nodup := by
  rcases AddPrune_cases s s' hypo r hk h with
    ⟨_, _, rfl⟩ | ⟨_, hf, _, hr⟩ | ⟨e, _, hf, ⟨_, _, rfl⟩ | ⟨_, _, _, rfl⟩ | ⟨_, _, _, hr⟩⟩
  · exact hk
  · exact (keys_afterInsert s hypo hk hf).sublist ((insertResult_sublist s s' hypo hr).map _)
  · exact hk
  · split <;> exact hk
  · have hW : ((withoutExisting s hypo e).m_hypos.map Hypothesis.key).Nodup := by
      rw [(withoutExisting_fields s hypo e).1]
      exact hk.sublist ((List.erase_sublist _ _).map _)
    exact (keys_afterInsert _ hypo hW (findEquiv_withoutExisting s hypo e hk hf)).sublist
      ((insertResult_sublist _ s' hypo hr).map _)

theorem AddPruneAll_keys : ∀ (hypos : List Hypothesis) (s s' : HypothesisStackNormal),
    (s.m_hypos.map Hypothesis.key).Nodup → AddPruneAll s hypos = .ok s' →
    (s'.m_hypos.map Hypothesis.key).Nodup
  | [], s, s', hk, h => by
    rw [← Except.ok.inj h]
    exact hk
  | hypo :: rest, s, s', hk, h => by
    simp only [AddPruneAll] at h
    cases hr : AddPrune s hypo with
    | error f => rw [hr] at h; cases h
    | ok p =>
      obtain ⟨r, s1⟩ := p
      rw [hr] at h
      exact AddPruneAll_keys rest s1 s' (AddPrune_keys s s1 hypo r hk hr) h

theorem AddPrune_best_mono (s s' : HypothesisStackNormal) (hypo : Hypothesis) (r : Bool)
    (hk : (s.m_hypos.map Hypothesis.key).Nodup) (h : AddPrune s hypo = .ok (r, s')) :
    s.m_bestScore ≤ s'.m_bestScore := by
  rcases AddPrune_cases s s' hypo r hk h with
    ⟨_, _, rfl⟩ | ⟨_, _, _, hr⟩ | ⟨e, _, _, ⟨_, _, rfl⟩ | ⟨_, _, _, rfl⟩ | ⟨_, _, _, hr⟩⟩
  · exact le_refl _
  · rw [insertResult_best s s' hypo hr]
    exact le_max_left _ _
  · exact le_refl _
  · split <;> exact le_refl _
  · rw [insertResult_best _ s' hypo hr, (withoutExisting_fields s hypo e).2.1]
    exact le_max_left _ _

theorem scoreThreshold_ne_none (s : HypothesisStackNormal) (n : Nat)
    (h : candidateScores s ≠ []) : ∃ t, scoreThreshold s n = some t := by
  obtain ⟨_, hp⟩ := pushScores_sorted_perm s s.m_hypos [] (List.sorted_nil)
  simp only [List.nil_append] at hp
  change (pushScores s s.m_hypos []).Perm (candidateScores s) at hp
  have hlen := hp.length_eq
  have hpos : 0 < (candidateScores s).length := List.length_pos.mpr h
  generalize hL : pushScores s s.m_hypos [] = L at hp hlen
  have hi : (if n > L.length then L.length else n) - 1 < L.length := by
    split <;> omega
  refine ⟨L[(if n > L.length then L.length else n) - 1], ?_⟩
  simp only [scoreThreshold, hL, pop_iterate, PriorityQueue.top, List.head?_drop]
  exact List.getElem?_eq_getElem hi

/-! ## Result extraction -/

theorem scan_best : ∀ (rest : List Hypothesis) (first : Hypothesis),
    rest.foldl (fun bestHypo hypo =>
        if bestHypo.GetTotalScore < hypo.GetTotalScore then hypo else bestHypo) first
      ∈ first :: rest ∧
    ∀ m ∈ first :: rest, m.GetTotalScore ≤ (rest.foldl (fun bestHypo hypo =>
        if bestHypo.GetTotalScore < hypo.GetTotalScore then hypo else bestHypo)
          first).GetTotalScore
  | [], first => by simp
  | hypo :: rest, first => by
    simp only [List.foldl_cons]
    by_cases hc : first.GetTotalScore < hypo.GetTotalScore
    · obtain ⟨h1, h2⟩ := scan_best rest hypo
      rw [if_pos hc]
      refine ⟨List.mem_cons_of_mem _ h1, ?_⟩
      intro m hm
      rcases List.mem_cons.mp hm with rfl | hm
      · exact (le_of_lt hc).trans (h2 hypo (List.mem_cons_self _ _))
      · exact h2 m hm
    · obtain ⟨h1, h2⟩ := scan_best rest first
      rw [if_neg hc]
      refine ⟨?_, ?_⟩
      · rcases List.mem_cons.mp h1 with h | h
        · rw [h]; exact List.mem_cons_self _ _
        · exact List.mem_cons_of_mem _ (List.mem_cons_of_mem _ h)
      · intro m hm
        rcases List.mem_cons.mp hm with rfl | hm
        · exact h2 m (List.mem_cons_self _ _)
        · rcases List.mem_cons.mp hm with rfl | hm
          · exact (not_lt.mp hc).trans (h2 first (List.mem_cons_self _ _))
          · exact h2 m (List.mem_cons_of_mem _ hm)

theorem GetBestHypothesis_nil (s : HypothesisStackNormal) (h : s.m_hypos = []) :
    GetBestHypothesis s = (none, s) := by
  unfold GetBestHypothesis
  rw [h]

theorem GetBestHypothesis_some (s : HypothesisStackNormal) (h : s.m_hypos ≠ []) :
    ∃ b, GetBestHypothesis s = (some b, s) ∧ b ∈ s.m_hypos ∧
      ∀ m ∈ s.m_hypos, m.GetTotalScore ≤ b.GetTotalScore := by
  unfold GetBestHypothesis
  cases hl : s.m_hypos with
  | nil => exact absurd hl h
  | cons first rest =>
    obtain ⟨h1, h2⟩ := scan_best rest first
    exact ⟨_, rfl, h1, h2⟩

theorem stdSort_perm (l : List Hypothesis) :
    (stdSort CompareHypothesisTotalScore l).Perm l :=
  List.perm_insertionSort _ l

theorem stdSort_sorted (l : List Hypothesis) :
    (stdSort CompareHypothesisTotalScore l).Sorted
      (fun a b => b.GetTotalScore ≤ a.GetTotalScore) := by
  have htotal : IsTotal Hypothesis (fun a b => CompareHypothesisTotalScore b a = false) :=
    ⟨fun a b => by
      simp only [CompareHypothesisTotalScore, decide_eq_false_iff_not, not_lt]
      exact le_total _ _⟩
  have htrans : IsTrans Hypothesis (fun a b => CompareHypothesisTotalScore b a = false) :=
    ⟨fun a b c hab hbc => by
      simp only [CompareHypothesisTotalScore, decide_eq_false_iff_not, not_lt] at hab hbc ⊢
      exact hbc.trans hab⟩
  have hs := @List.sorted_insertionSort Hypothesis
    (fun a b => CompareHypothesisTotalScore b a = false) _ htotal htrans l
  refine List.Pairwise.imp ?_ hs
  intro a b hab
  simpa [CompareHypothesisTotalScore] using hab

/-- Past the size guard, a stack without a member above the beam margin makes
`PruneToSize` read `top()` from an empty queue. -/
theorem PruneToSize_no_candidate (s : HypothesisStackNormal) (n : Nat)
    (hsz : n < s.m_hypos.length)
    (hq : ∀ m ∈ s.m_hypos,
      ¬ s.m_bestScore + (s.m_beamWidth : Score) < (m.GetTotalScore : Score)) :
    PruneToSize s n = .error Fault.emptyHeapTop := by
  apply PruneToSize_of_none s n hsz
  apply scoreThreshold_eq_none
  cases hc : candidateScores s with
  | nil => rfl
  | cons t rest =>
    have : t ∈ candidateScores s := by rw [hc]; exact List.mem_cons_self _ _
    obtain ⟨m, hm, hmq, _⟩ := (mem_candidateScores s t).mp this
    exact absurd hmq (hq m hm)

theorem Add_eq_insertResult (s : HypothesisStackNormal) (hypo : Hypothesis)
    (h : findEquiv s hypo = none) :
    Add s hypo = (insertResult s hypo).map (fun s3 => ((hypo, true), s3)) := by
  rw [Add_of_none s hypo h]
  unfold insertResult
  split <;> rfl

theorem insertResult_ok_of (s : HypothesisStackNormal) (hypo : Hypothesis)
    (h : (afterInsert s hypo).m_hypos.length ≤ pruneLimit s.m_maxHypoStackSize ∨
      candidateScores (afterInsert s hypo) ≠ []) :
    ∃ s', insertResult s hypo = .ok s' := by
  unfold insertResult
  by_cases hc : (afterInsert s hypo).m_hypos.length > pruneLimit s.m_maxHypoStackSize
  · rw [if_pos hc]
    rcases h with h | h
    · omega
    · by_cases hgt : (afterInsert s hypo).m_hypos.length > s.m_maxHypoStackSize
      · obtain ⟨t, ht⟩ := scoreThreshold_ne_none (afterInsert s hypo) s.m_maxHypoStackSize h
        exact ⟨_, PruneToSize_of_some _ _ t hgt ht⟩
      · exact ⟨_, PruneToSize_of_le _ _ hgt⟩
  · rw [if_neg hc]
    exact ⟨_, rfl⟩

theorem AddPrune_ne_abort (s : HypothesisStackNormal) (hypo : Hypothesis)
    (hk : (s.m_hypos.map Hypothesis.key).Nodup) : AddPrune s hypo ≠ .error Fault.abort := by
  by_cases ha : (hypo.GetTotalScore : Score) < s.m_worstScore
  · rw [AddPrune_discard s hypo ha]; intro h; cases h
  · cases hf : findEquiv s hypo with
    | none =>
      rw [AddPrune_new_eq s hypo ha hf]
      cases hr : insertResult s hypo with
      | error f =>
        intro h
        have : f = Fault.abort := by cases h; rfl
        rw [this] at hr
        exact insertResult_ne_abort s hypo hr
      | ok s' => intro h; cases h
    | some e =>
      by_cases h3 : s.useMaxentReordering = true ∧ doNotRecombine hypo e = true
      · rw [AddPrune_skip s hypo e ha hf h3]; intro h; cases h
      · by_cases h4 : e.GetTotalScore < hypo.GetTotalScore
        · rw [AddPrune_win_eq s hypo e ha hf h3 h4 (findEquiv_withoutExisting s hypo e hk hf)]
          cases hr : insertResult (withoutExisting s hypo e) hypo with
          | error f =>
            intro h
            have : f = Fault.abort := by cases h; rfl
            rw [this] at hr
            exact insertResult_ne_abort _ hypo hr
          | ok s' => intro h; cases h
        · rw [AddPrune_lose s hypo e ha hf h3 h4]; intro h; cases h

/-- A call returns when each pruning pass it may run has a threshold to read. -/
theorem AddPrune_returns (s : HypothesisStackNormal) (hypo : Hypothesis)
    (hk : (s.m_hypos.map Hypothesis.key).Nodup)
    (hnew : findEquiv s hypo = none → ThresholdDefined s hypo)
    (hwin : ∀ e, findEquiv s hypo = some e → e.GetTotalScore < hypo.GetTotalScore →
      ThresholdDefined (withoutExisting s hypo e) hypo) :
    ∃ r s', AddPrune s hypo = .ok (r, s') := by
  by_cases ha : (hypo.GetTotalScore : Score) < s.m_worstScore
  · exact ⟨_, _, AddPrune_discard s hypo ha⟩
  · cases hf : findEquiv s hypo with
    | none =>
      obtain ⟨s', hs'⟩ := insertResult_ok_of s hypo (hnew hf)
      exact ⟨true, s', by rw [AddPrune_new_eq s hypo ha hf, hs']; rfl⟩
    | some e =>
      by_cases h3 : s.useMaxentReordering = true ∧ doNotRecombine hypo e = true
      · exact ⟨_, _, AddPrune_skip s hypo e ha hf h3⟩
      · by_cases h4 : e.GetTotalScore < hypo.GetTotalScore
        · obtain ⟨s', hs'⟩ := insertResult_ok_of (withoutExisting s hypo e) hypo (hwin e hf h4)
          exact ⟨false, s', by
            rw [AddPrune_win_eq s hypo e ha hf h3 h4 (findEquiv_withoutExisting s hypo e hk hf),
              hs']; rfl⟩
        · exact ⟨_, _, AddPrune_lose s hypo e ha hf h3 h4⟩

/-- Past the size guard, when no member is above `m_bestScore` and the margin
`m_bestScore + m_beamWidth` is not strictly below `m_bestScore`, `PruneToSize` reads
`top()` from an empty queue. -/
theorem PruneToSize_margin_not_below_best (s : HypothesisStackNormal) (n : Nat)
    (hsz : n < s.m_hypos.length)
    (hle : ∀ m ∈ s.m_hypos, (m.GetTotalScore : Score) ≤ s.m_bestScore)
    (hm : ¬ s.m_bestScore + (s.m_beamWidth : Score) < s.m_bestScore) :
    PruneToSize s n = .error Fault.emptyHeapTop :=
  PruneToSize_no_candidate s n hsz (fun m hmem hq => hm (hq.trans_le (hle m hmem)))

/-! ## The claims -/

/-- C1: with n-best disabled and no reordering exception, admitting two hypotheses `a`
and `b` of equal key into a fresh stack (`beamWidth ≤ 0`, any `maxStackSize`) returns and
leaves exactly one member, whose score is the larger of the two; the other hypothesis has
been destroyed, is not a member and is in no arc list. -/
theorem C1_recombination_keeps_the_better (beamWidth : ℤ) (maxHypoStackSize : Nat)
    (maxent : Bool) (a b : Hypothesis) (hbw : beamWidth ≤ 0) (hkey : a.key = b.key)
    (hab : a ≠ b) (hexc : ¬ (maxent = true ∧ doNotRecombine b a = true)) :
    ∃ s winner loser,
      AddPruneAll (new beamWidth maxHypoStackSize false maxent) [a, b] = .ok s ∧
      ((winner = a ∧ loser = b) ∨ (winner = b ∧ loser = a)) ∧
      s.m_hypos = [winner] ∧
      winner.GetTotalScore = max a.GetTotalScore b.GetTotalScore ∧
      loser ∈ s.freed ∧ loser ∉ s.m_hypos ∧ ∀ w, loser ∉ arcList s w := by
  have hlim := pruneLimit_pos maxHypoStackSize
  have hfirst := AddPrune_fresh beamWidth maxHypoStackSize false maxent a
  have hS := afterInsert_fresh beamWidth maxHypoStackSize false maxent a
  generalize afterInsert (new beamWidth maxHypoStackSize false maxent) a = S at hfirst hS
  have hSh : S.m_hypos = [a] := by rw [hS]
  have hSw : S.m_worstScore = (a.GetTotalScore : Score) + (beamWidth : Score) := by rw [hS]
  have hSf : S.freed = [] := by rw [hS]; rfl
  have hSa : S.arcs = [] := by rw [hS]; rfl
  have hSn : S.m_nBestIsEnabled = false := by rw [hS]; rfl
  have hSe : S.useMaxentReordering = maxent := by rw [hS]; rfl
  have hSm : S.m_maxHypoStackSize = maxHypoStackSize := by rw [hS]; rfl
  clear hS
  by_cases h1 : (b.GetTotalScore : Score) < S.m_worstScore
  · refine ⟨FREEHYPO { S with sentenceStats := { S.sentenceStats with
        m_numDiscarded := S.sentenceStats.m_numDiscarded + 1 } } b, a, b,
      AddPruneAll_two _ _ _ a b _ _ hfirst (AddPrune_discard S b h1),
      Or.inl ⟨rfl, rfl⟩, hSh, ?_, ?_, ?_, ?_⟩
    · rw [hSw] at h1
      have h1' : b.GetTotalScore < a.GetTotalScore + beamWidth := by exact_mod_cast h1
      rw [max_eq_left]
      omega
    · simp [FREEHYPO]
    · change b ∉ S.m_hypos
      rw [hSh]
      simpa using hab.symm
    · intro w
      simp [arcList, FREEHYPO, hSa]
  · have hf : findEquiv S b = some a := by
      simp [findEquiv, hSh, hkey]
    have hexc' : ¬ (S.useMaxentReordering = true ∧ doNotRecombine b a = true) := by
      rw [hSe]; exact hexc
    by_cases h4 : a.GetTotalScore < b.GetTotalScore
    · have hk : (S.m_hypos.map Hypothesis.key).Nodup := by rw [hSh]; simp
      obtain ⟨hWh, _, _, _, hWm, _, _⟩ := withoutExisting_fields S b a
      have hWh' : (withoutExisting S b a).m_hypos = [] := by rw [hWh, hSh]; simp
      have hWf : (withoutExisting S b a).freed = [a] := by
        simp [withoutExisting, hSn, Remove, Detach, FREEHYPO, hSf, countRecombination]
      have hWa : (withoutExisting S b a).arcs = [] := by
        simp [withoutExisting, hSn, Remove, Detach, FREEHYPO, hSa, countRecombination]
      have hAh : (afterInsert (withoutExisting S b a) b).m_hypos = [b] := by
        simp [afterInsert, hWh']
      have hI : insertResult (withoutExisting S b a) b
          = .ok (afterInsert (withoutExisting S b a) b) := by
        unfold insertResult
        rw [if_neg]
        rw [hAh, hWm, hSm]
        simp only [List.length_singleton, gt_iff_lt, not_lt]
        exact hlim
      have hsecond : AddPrune S b = .ok (false, afterInsert (withoutExisting S b a) b) := by
        rw [AddPrune_win_eq S b a h1 hf hexc' h4 (findEquiv_withoutExisting S b a hk hf), hI]
        rfl
      refine ⟨afterInsert (withoutExisting S b a) b, b, a,
        AddPruneAll_two _ _ _ a b _ _ hfirst hsecond, Or.inr ⟨rfl, rfl⟩, hAh, ?_, ?_, ?_, ?_⟩
      · rw [max_eq_right]; omega
      · change a ∈ (withoutExisting S b a).freed
        rw [hWf]; simp
      · rw [hAh]; simpa using hab
      · intro w
        change a ∉ (((withoutExisting S b a).arcs.filter (fun p => p.1 = w)).map Prod.snd)
        rw [hWa]; simp
    · have hsecond := AddPrune_lose S b a h1 hf hexc' h4
      rw [hSn] at hsecond
      simp only [Bool.false_eq_true, if_false] at hsecond
      refine ⟨FREEHYPO (countRecombination S) b, a, b,
        AddPruneAll_two _ _ _ a b _ _ hfirst hsecond, Or.inl ⟨rfl, rfl⟩, hSh, ?_, ?_, ?_, ?_⟩
      · rw [max_eq_left]; omega
      · simp [FREEHYPO]
      · change b ∉ S.m_hypos
        rw [hSh]
        simpa using hab.symm
      · intro w
        simp [arcList, FREEHYPO, countRecombination, hSa]

theorem C1_witness :
    ((-1 : ℤ) ≤ 0 ∧ hypoTen.key = hypoTwelve.key ∧ hypoTen ≠ hypoTwelve) ∧
    ∃ s winner loser,
      AddPruneAll (new (-1) 1 false false) [hypoTen, hypoTwelve] = .ok s ∧
      ((winner = hypoTen ∧ loser = hypoTwelve) ∨ (winner = hypoTwelve ∧ loser = hypoTen)) ∧
      s.m_hypos = [winner] ∧
      winner.GetTotalScore = max hypoTen.GetTotalScore hypoTwelve.GetTotalScore ∧
      loser ∈ s.freed ∧ loser ∉ s.m_hypos ∧ ∀ w, loser ∉ arcList s w :=
  ⟨⟨by decide, by decide, by decide⟩,
    C1_recombination_keeps_the_better (-1) 1 false hypoTen hypoTwelve
      (by decide) (by decide) (by decide) (by decide)⟩

/-- C2: with n-best enabled, in every state a fresh stack reaches through `AddPrune`
calls, take a hypothesis that is not below `worstScore` and whose key matches the member
`e` (no reordering exception).  If it does not beat `e`, the call returns false, the
hypothesis is in the arc list of `e`, and `e` is a member and the only member with that
key.  If it beats `e`, then whenever the call returns, `e` is in the arc list of the
hypothesis and the hypothesis is a member and the only member with that key; and the
call returns (false) when the pruning pass of the re-insertion has a threshold to read. -/
theorem C2_recombination_keeps_loser_as_arc (beamWidth : ℤ) (maxHypoStackSize : Nat)
    (maxent : Bool) (s : HypothesisStackNormal) (hypo e : Hypothesis)
    (h1 : 1 ≤ maxHypoStackSize) (h2 : maxHypoStackSize < 2 ^ 63)
    (hr : Reachable beamWidth maxHypoStackSize true maxent s)
    (ha : ¬ (hypo.GetTotalScore : Score) < s.m_worstScore)
    (he : e ∈ s.m_hypos) (hkey : e.key = hypo.key)
    (hexc : ¬ (maxent = true ∧ doNotRecombine hypo e = true)) :
    (¬ e.GetTotalScore < hypo.GetTotalScore →
      ∃ s', AddPrune s hypo = .ok (false, s') ∧
        hypo ∈ arcList s' e ∧ e ∈ s'.m_hypos ∧
        ∀ m ∈ s'.m_hypos, m.key = hypo.key → m = e) ∧
    (e.GetTotalScore < hypo.GetTotalScore →
      (∀ r s', AddPrune s hypo = .ok (r, s') →
        r = false ∧ e ∈ arcList s' hypo ∧ hypo ∈ s'.m_hypos ∧
        ∀ m ∈ s'.m_hypos, m.key = hypo.key → m = hypo) ∧
      (ThresholdDefined (withoutExisting s hypo e) hypo →
        ∃ s', AddPrune s hypo = .ok (false, s'))) := by
  obtain ⟨hi, _, hmx, hnb, hme⟩ := hr.inv h1 h2
  have h1' : 1 ≤ s.m_maxHypoStackSize := by rw [hmx]; exact h1
  have h2' : s.m_maxHypoStackSize < 2 ^ 63 := by rw [hmx]; exact h2
  have hf := findEquiv_of_mem s hypo e hi.keys he hkey
  have hexc' : ¬ (s.useMaxentReordering = true ∧ doNotRecombine hypo e = true) := by
    rw [hme]; exact hexc
  constructor
  · intro h4
    refine ⟨if s.m_nBestIsEnabled then AddArc (countRecombination s) e hypo
      else FREEHYPO (countRecombination s) hypo, AddPrune_lose s hypo e ha hf hexc' h4, ?_⟩
    simp only [hnb, if_true]
    refine ⟨?_, he, ?_⟩
    · simp [arcList, AddArc, countRecombination]
    · intro m hm hk
      exact List.inj_on_of_nodup_map hi.keys hm he (hk.trans hkey.symm)
  · intro h4
    have hnone := findEquiv_withoutExisting s hypo e hi.keys hf
    have hw := AddPrune_win_eq s hypo e ha hf hexc' h4 hnone
    have hmxW := (withoutExisting_fields s hypo e).2.2.2.2.1
    constructor
    · intro r s' hadd
      have hi' := AddPrune_inv s s' hypo r hi h1' h2' hadd
      rw [hw] at hadd
      cases hres : insertResult (withoutExisting s hypo e) hypo with
      | error f => rw [hres] at hadd; cases hadd
      | ok s3 =>
        rw [hres] at hadd
        have hpair := Prod.mk.inj (Except.ok.inj hadd)
        have hs3 : s3 = s' := hpair.2
        subst hs3
        have hmem := win_survives s hypo e hi h1' h2' hf h4 s3 hres
        have harcs := insertResult_arcs _ s3 hypo (by rw [hmxW]; exact h1')
          (by rw [hmxW]; exact h2') hres
        refine ⟨hpair.1.symm, ?_, hmem, ?_⟩
        · simp [arcList, harcs, withoutExisting, hnb, Detach, AddArc, countRecombination]
        · intro m hm hk
          exact List.inj_on_of_nodup_map hi'.keys hm hmem hk
    · intro ht
      obtain ⟨s', hs'⟩ := insertResult_ok_of (withoutExisting s hypo e) hypo ht
      exact ⟨s', by rw [hw, hs']; rfl⟩

theorem C2_witness :
    (Reachable (-1) 1 true false (stateAfter (-1) 1 true false [hypoTen]) ∧
      hypoTen ∈ (stateAfter (-1) 1 true false [hypoTen]).m_hypos ∧
      hypoTen.key = hypoTwelve.key ∧
      hypoTen.GetTotalScore < hypoTwelve.GetTotalScore ∧
      ThresholdDefined (withoutExisting (stateAfter (-1) 1 true false [hypoTen])
        hypoTwelve hypoTen) hypoTwelve) ∧
    (∀ r s', AddPrune (stateAfter (-1) 1 true false [hypoTen]) hypoTwelve = .ok (r, s') →
      r = false ∧ hypoTen ∈ arcList s' hypoTwelve ∧ hypoTwelve ∈ s'.m_hypos ∧
      ∀ m ∈ s'.m_hypos, m.key = hypoTwelve.key → m = hypoTwelve) ∧
    ∃ s', AddPrune (stateAfter (-1) 1 true false [hypoTen]) hypoTwelve = .ok (false, s') :=
  ⟨⟨⟨[hypoTen], by decide⟩, by decide, by decide, by decide, Or.inl (by decide)⟩,
    ((C2_recombination_keeps_loser_as_arc (-1) 1 false (stateAfter (-1) 1 true false [hypoTen])
      hypoTwelve hypoTen (by decide) (by decide) ⟨[hypoTen], by decide⟩ (by decide) (by decide)
      (by decide) (by decide)).2 (by decide)).1,
    ((C2_recombination_keeps_loser_as_arc (-1) 1 false (stateAfter (-1) 1 true false [hypoTen])
      hypoTwelve hypoTen (by decide) (by decide) ⟨[hypoTen], by decide⟩ (by decide) (by decide)
      (by decide) (by decide)).2 (by decide)).2 (Or.inl (by decide))⟩

/-- C3: a hypothesis whose score is below `worstScore` is reported as not added and is
destroyed; the members, `bestScore` and `worstScore` are as before, and the discard is
counted. -/
theorem C3_fast_rejection (s : HypothesisStackNormal) (hypo : Hypothesis)
    (h : (hypo.GetTotalScore : Score) < s.m_worstScore) :
    ∃ s', AddPrune s hypo = .ok (false, s') ∧ hypo ∈ s'.freed ∧
      s'.m_hypos = s.m_hypos ∧ s'.m_bestScore = s.m_bestScore ∧
      s'.m_worstScore = s.m_worstScore ∧ s'.arcs = s.arcs ∧
      s'.sentenceStats.m_numDiscarded = s.sentenceStats.m_numDiscarded + 1 := by
  refine ⟨_, AddPrune_discard s hypo h, ?_, rfl, rfl, rfl, rfl, rfl⟩
  simp [FREEHYPO]

theorem C3_witness :
    ((scenarioLast.GetTotalScore : Score) < (stateAfter (-1) 2 false false scenarioHypos).m_worstScore) ∧
    ∃ s', AddPrune (stateAfter (-1) 2 false false scenarioHypos) scenarioLast = .ok (false, s') ∧
      scenarioLast ∈ s'.freed ∧
      s'.m_hypos = (stateAfter (-1) 2 false false scenarioHypos).m_hypos ∧
      s'.m_bestScore = (stateAfter (-1) 2 false false scenarioHypos).m_bestScore ∧
      s'.m_worstScore = (stateAfter (-1) 2 false false scenarioHypos).m_worstScore ∧
      s'.arcs = (stateAfter (-1) 2 false false scenarioHypos).arcs ∧
      s'.sentenceStats.m_numDiscarded
        = (stateAfter (-1) 2 false false scenarioHypos).sentenceStats.m_numDiscarded + 1 :=
  ⟨by decide, C3_fast_rejection (stateAfter (-1) 2 false false scenarioHypos) scenarioLast
    (by decide)⟩

/-- C4: when no member has the key of `h`, `h` is not below `worstScore` and
`size + 1 ≤ 2*maxStackSize - 1`, `AddPrune` returns true, the members are the old ones
plus `h`, `bestScore` becomes the larger of the old value and the score of `h`, and
`worstScore` becomes the larger of the old value and `score + beamWidth` when the score
is a new best and is unchanged otherwise; with both registers at negative infinity this
gives `bestScore = score` and `worstScore = score + beamWidth`. -/
theorem C4_insertion_of_new_key (s : HypothesisStackNormal) (hypo : Hypothesis)
    (hnew : ∀ m ∈ s.m_hypos, m.key ≠ hypo.key)
    (ha : ¬ (hypo.GetTotalScore : Score) < s.m_worstScore)
    (hsz : s.size + 1 ≤ 2 * s.m_maxHypoStackSize - 1)
    (hmx : s.m_maxHypoStackSize < 2 ^ 63) :
    ∃ s', AddPrune s hypo = .ok (true, s') ∧
      s'.m_hypos.Perm (hypo :: s.m_hypos) ∧
      s'.m_bestScore = max s.m_bestScore (hypo.GetTotalScore : Score) ∧
      s'.m_worstScore =
        (if s.m_bestScore < (hypo.GetTotalScore : Score) then
          max s.m_worstScore ((hypo.GetTotalScore : Score) + (s.m_beamWidth : Score))
        else s.m_worstScore) ∧
      (s.m_bestScore = ⊥ → s.m_worstScore = ⊥ →
        s'.m_bestScore = (hypo.GetTotalScore : Score) ∧
        s'.m_worstScore = (hypo.GetTotalScore : Score) + (s.m_beamWidth : Score)) := by
  have hf := (findEquiv_eq_none_iff s hypo).mpr hnew
  have hge : 1 ≤ s.m_maxHypoStackSize := by
    unfold size at hsz
    omega
  have hI : insertResult s hypo = .ok (afterInsert s hypo) := by
    unfold insertResult
    rw [if_neg]
    rw [(perm_afterInsert s hypo).length_eq, pruneLimit_eq _ hge hmx, List.length_cons]
    unfold size at hsz
    omega
  refine ⟨afterInsert s hypo, ?_, perm_afterInsert s hypo, afterInsert_best s hypo,
    afterInsert_worst s hypo, ?_⟩
  · rw [AddPrune_new_eq s hypo ha hf, hI]
    rfl
  · intro hb hw
    rw [afterInsert_best, afterInsert_worst, hb, hw]
    have : (⊥ : Score) < (hypo.GetTotalScore : Score) := WithBot.bot_lt_coe _
    rw [if_pos this]
    simp

theorem C4_witness :
    ((∀ m ∈ (new (-1) 2 false false).m_hypos, m.key ≠ scenarioLast.key) ∧
      ¬ (scenarioLast.GetTotalScore : Score) < (new (-1) 2 false false).m_worstScore ∧
      (new (-1) 2 false false).size + 1 ≤ 2 * (new (-1) 2 false false).m_maxHypoStackSize - 1 ∧
      (new (-1) 2 false false).m_maxHypoStackSize < 2 ^ 63) ∧
    ∃ s', AddPrune (new (-1) 2 false false) scenarioLast = .ok (true, s') ∧
      s'.m_hypos.Perm (scenarioLast :: (new (-1) 2 false false).m_hypos) ∧
      s'.m_bestScore = max (new (-1) 2 false false).m_bestScore (scenarioLast.GetTotalScore : Score) ∧
      s'.m_worstScore =
        (if (new (-1) 2 false false).m_bestScore < (scenarioLast.GetTotalScore : Score) then
          max (new (-1) 2 false false).m_worstScore
            ((scenarioLast.GetTotalScore : Score) + ((new (-1) 2 false false).m_beamWidth : Score))
        else (new (-1) 2 false false).m_worstScore) ∧
      ((new (-1) 2 false false).m_bestScore = ⊥ → (new (-1) 2 false false).m_worstScore = ⊥ →
        s'.m_bestScore = (scenarioLast.GetTotalScore : Score) ∧
        s'.m_worstScore = (scenarioLast.GetTotalScore : Score)
          + ((new (-1) 2 false false).m_beamWidth : Score)) :=
  ⟨⟨by decide, by decide, by decide, by decide⟩,
    C4_insertion_of_new_key (new (-1) 2 false false) scenarioLast
      (by decide) (by decide) (by decide) (by decide)⟩

/-- C5: with maxent reordering active, `gapIncoming` collides with the member
`gapExisting` and the reordering exception fires; `AddPrune` returns true and leaves the
state as it was: `gapIncoming` is not a member, the stack still has one member, and
`gapIncoming` is neither destroyed nor in an arc list. -/
theorem C5_exception_drops_incoming :
    doNotRecombine gapIncoming gapExisting = true ∧
    (stateAfter (-1) 1 false true [gapExisting]).m_hypos = [gapExisting] ∧
    AddPrune (stateAfter (-1) 1 false true [gapExisting]) gapIncoming
      = .ok (true, stateAfter (-1) 1 false true [gapExisting]) ∧
    gapIncoming ∉ (stateAfter (-1) 1 false true [gapExisting]).m_hypos ∧
    (stateAfter (-1) 1 false true [gapExisting]).size = 1 ∧
    gapIncoming ∉ (stateAfter (-1) 1 false true [gapExisting]).freed ∧
    (stateAfter (-1) 1 false true [gapExisting]).arcs = [] := by
  decide

/-- C6: with maxent reordering active, for a hypothesis that is not below `worstScore` and
collides with the member `e`, `AddPrune` skips recombination (returns true and leaves the
state as it was) exactly when the two spans cover different numbers of words and one of
the two hypotheses follows a gap; the nested test of the code is this symmetric
condition, and it is false when both spans start at position 0. -/
theorem C6_exception_condition (s : HypothesisStackNormal) (hypo e : Hypothesis)
    (hme : s.useMaxentReordering = true)
    (ha : ¬ (hypo.GetTotalScore : Score) < s.m_worstScore)
    (hf : findEquiv s hypo = some e) :
    (AddPrune s hypo = .ok (true, s) ↔ ReorderingException hypo e) ∧
    ((∃ s', AddPrune s hypo = .ok (true, s')) ↔ ReorderingException hypo e) ∧
    (doNotRecombine hypo e = true ↔ ReorderingException hypo e) ∧
    (hypo.GetCurrSourceWordsRange.GetStartPos = 0 →
      e.GetCurrSourceWordsRange.GetStartPos = 0 → doNotRecombine hypo e = false) := by
  have key : ¬ ReorderingException hypo e → ∀ s', AddPrune s hypo ≠ .ok (true, s') := by
    intro hx s'
    apply AddPrune_recombine_ne s hypo e ha hf
    rintro ⟨_, hd⟩
    exact hx ((doNotRecombine_iff hypo e).mp hd)
  refine ⟨⟨?_, ?_⟩, ⟨?_, ?_⟩, doNotRecombine_iff hypo e, ?_⟩
  · intro h
    by_contra hx
    exact key hx s h
  · intro hx
    exact AddPrune_skip s hypo e ha hf ⟨hme, (doNotRecombine_iff hypo e).mpr hx⟩
  · rintro ⟨s', h⟩
    by_contra hx
    exact key hx s' h
  · intro hx
    exact ⟨s, AddPrune_skip s hypo e ha hf ⟨hme, (doNotRecombine_iff hypo e).mpr hx⟩⟩
  · intro h0 h0'
    simp [doNotRecombine, h0, h0']

theorem C6_witness :
    ((stateAfter (-1) 1 false true [gapExisting]).useMaxentReordering = true ∧
      ¬ (gapIncoming.GetTotalScore : Score) < (stateAfter (-1) 1 false true [gapExisting]).m_worstScore ∧
      findEquiv (stateAfter (-1) 1 false true [gapExisting]) gapIncoming = some gapExisting) ∧
    ((AddPrune (stateAfter (-1) 1 false true [gapExisting]) gapIncoming
        = .ok (true, stateAfter (-1) 1 false true [gapExisting])
        ↔ ReorderingException gapIncoming gapExisting) ∧
    ((∃ s', AddPrune (stateAfter (-1) 1 false true [gapExisting]) gapIncoming = .ok (true, s'))
        ↔ ReorderingException gapIncoming gapExisting) ∧
    (doNotRecombine gapIncoming gapExisting = true ↔ ReorderingException gapIncoming gapExisting) ∧
    (gapIncoming.GetCurrSourceWordsRange.GetStartPos = 0 →
      gapExisting.GetCurrSourceWordsRange.GetStartPos = 0 →
      doNotRecombine gapIncoming gapExisting = false)) :=
  ⟨⟨by decide, by decide, by decide⟩,
    C6_exception_condition (stateAfter (-1) 1 false true [gapExisting]) gapIncoming gapExisting
      (by decide) (by decide) (by decide)⟩

/-- C7: for a stack with more than `n ≥ 1` members, one of them above
`bestScore + beamWidth`, `PruneToSize n` returns; its threshold `t` is the `k`-th largest
score, duplicates counted, among the members above that margin, `k` the smaller of `n`
and their number; the members afterwards are exactly the former members with
`totalScore ≥ t`, the others are destroyed, `worstScore = t`, and every member is at or
above `worstScore`. -/
theorem C7_pruning_postcondition (s : HypothesisStackNormal) (n : Nat) (hn : 1 ≤ n)
    (hsz : n < s.size)
    (hq : ∃ m ∈ s.m_hypos, s.m_bestScore + (s.m_beamWidth : Score) < (m.GetTotalScore : Score)) :
    ∃ t s', PruneToSize s n = .ok s' ∧
      IsKthLargest (candidateScores s) (min n (candidateScores s).length) t ∧
      s'.m_hypos = s.m_hypos.filter (fun m => t ≤ m.GetTotalScore) ∧
      s'.freed = s.freed ++ s.m_hypos.filter (fun m => m.GetTotalScore < t) ∧
      s'.m_worstScore = (t : Score) ∧
      s'.m_bestScore = s.m_bestScore ∧
      ∀ m ∈ s'.m_hypos, s'.m_worstScore ≤ (m.GetTotalScore : Score) := by
  obtain ⟨t, hp, hk⟩ := PruneToSize_spec s n hn hsz hq
  refine ⟨t, prunedAt s t, hp, hk, ?_, rfl, rfl, rfl, ?_⟩
  · simp only [prunedAt]
    apply List.filter_congr
    intro m _
    simp
  · intro m hm
    have := ((mem_prunedAt s t m).mp hm).2
    change (t : Score) ≤ _
    exact_mod_cast this

theorem C7_witness :
    ((1 : Nat) ≤ 1 ∧ 1 < (stateAfter (-1) 2 false false scenarioHypos).size ∧
      ∃ m ∈ (stateAfter (-1) 2 false false scenarioHypos).m_hypos,
        (stateAfter (-1) 2 false false scenarioHypos).m_bestScore
          + ((stateAfter (-1) 2 false false scenarioHypos).m_beamWidth : Score)
          < (m.GetTotalScore : Score)) ∧
    ∃ t s', PruneToSize (stateAfter (-1) 2 false false scenarioHypos) 1 = .ok s' ∧
      IsKthLargest (candidateScores (stateAfter (-1) 2 false false scenarioHypos))
        (min 1 (candidateScores (stateAfter (-1) 2 false false scenarioHypos)).length) t ∧
      s'.m_hypos = (stateAfter (-1) 2 false false scenarioHypos).m_hypos.filter
        (fun m => t ≤ m.GetTotalScore) ∧
      s'.freed = (stateAfter (-1) 2 false false scenarioHypos).freed
        ++ (stateAfter (-1) 2 false false scenarioHypos).m_hypos.filter
          (fun m => m.GetTotalScore < t) ∧
      s'.m_worstScore = (t : Score) ∧
      s'.m_bestScore = (stateAfter (-1) 2 false false scenarioHypos).m_bestScore ∧
      ∀ m ∈ s'.m_hypos, s'.m_worstScore ≤ (m.GetTotalScore : Score) :=
  ⟨⟨by decide, by decide, by decide⟩,
    C7_pruning_postcondition (stateAfter (-1) 2 false false scenarioHypos) 1
      (by decide) (by decide) (by decide)⟩

/-- C8: for a stack with more than `n ≥ 1` members, one of them above
`bestScore + beamWidth`, after `PruneToSize n` fewer than `n` members score strictly above
the threshold (the new `worstScore`), and the number of members is at most `n` plus the
number of members whose score equals the threshold. -/
theorem C8_size_bound_after_pruning (s : HypothesisStackNormal) (n : Nat) (hn : 1 ≤ n)
    (hsz : n < s.size)
    (hq : ∃ m ∈ s.m_hypos, s.m_bestScore + (s.m_beamWidth : Score) < (m.GetTotalScore : Score)) :
    ∃ (t : ℤ) (s' : HypothesisStackNormal), PruneToSize s n = .ok s' ∧
      s'.m_worstScore = (t : Score) ∧
      s'.m_hypos.countP (fun m => t < m.GetTotalScore) ≤ n - 1 ∧
      s'.size ≤ n + s'.m_hypos.countP (fun m => m.GetTotalScore = t) := by
  obtain ⟨t, hp, hk⟩ := PruneToSize_spec s n hn hsz hq
  obtain ⟨m0, _, hq0, he0⟩ := (mem_candidateScores s t).mp hk.1
  have hqt : s.m_bestScore + (s.m_beamWidth : Score) < (t : Score) := by rw [← he0]; exact hq0
  have c1 : (prunedAt s t).m_hypos.countP (fun m => decide (t < m.GetTotalScore))
      ≤ s.m_hypos.countP (fun m => decide (t < m.GetTotalScore)) :=
    List.Sublist.countP_le _ (List.filter_sublist _)
  have c2 := countP_candidateScores_gt s t hqt
  have c3 := hk.2.1
  have c4 : (prunedAt s t).m_hypos.countP (fun m => decide (t < m.GetTotalScore)) ≤ n - 1 := by
    omega
  refine ⟨t, prunedAt s t, hp, rfl, c4, ?_⟩
  have c5 := List.length_eq_countP_add_countP (fun m : Hypothesis => decide (t < m.GetTotalScore))
    (prunedAt s t).m_hypos
  have c6 : (prunedAt s t).m_hypos.countP (fun m => decide ¬ (decide (t < m.GetTotalScore)) = true)
      = (prunedAt s t).m_hypos.countP (fun m => decide (m.GetTotalScore = t)) := by
    apply List.countP_congr
    intro m hm
    have := ((mem_prunedAt s t m).mp hm).2
    simp only [decide_eq_true_eq, not_lt]
    omega
  unfold size
  omega

theorem C8_witness :
    ((1 : Nat) ≤ 1 ∧ 1 < (stateAfter (-1) 1 false false [tieOne, tieTwo]).size ∧
      ∃ m ∈ (stateAfter (-1) 1 false false [tieOne, tieTwo]).m_hypos,
        (stateAfter (-1) 1 false false [tieOne, tieTwo]).m_bestScore
          + ((stateAfter (-1) 1 false false [tieOne, tieTwo]).m_beamWidth : Score)
          < (m.GetTotalScore : Score)) ∧
    ∃ (t : ℤ) (s' : HypothesisStackNormal),
      PruneToSize (stateAfter (-1) 1 false false [tieOne, tieTwo]) 1 = .ok s' ∧
      s'.m_worstScore = (t : Score) ∧
      s'.m_hypos.countP (fun m => t < m.GetTotalScore) ≤ 1 - 1 ∧
      s'.size ≤ 1 + s'.m_hypos.countP (fun m => m.GetTotalScore = t) :=
  ⟨⟨by decide, by decide, by decide⟩,
    C8_size_bound_after_pruning (stateAfter (-1) 1 false false [tieOne, tieTwo]) 1
      (by decide) (by decide) (by decide)⟩

/-- C9, as stated, fails: with `maxStackSize = 1` and `beamWidth = -1` the two hypotheses
of score 5 and distinct keys are both admitted; the pruning pass the second one triggers
has threshold 5 and evicts nothing, so the stack holds 2 members, more than `2*1 - 1`. -/
theorem C9_counterexample :
    AddPruneAll (new (-1) 1 false false) [tieOne, tieTwo]
      = .ok (stateAfter (-1) 1 false false [tieOne, tieTwo]) ∧
    (stateAfter (-1) 1 false false [tieOne, tieTwo]).m_hypos = [tieOne, tieTwo] ∧
    (stateAfter (-1) 1 false false [tieOne, tieTwo]).sentenceStats.m_numPruned = 0 ∧
    ¬ (stateAfter (-1) 1 false false [tieOne, tieTwo]).size ≤ 2 * 1 - 1 := by
  decide

/-- C9, amended: in every state a fresh stack with `maxStackSize ≥ 1` reaches through
`AddPrune` calls, at most `2*maxStackSize - 1` members have a score different from
`worstScore`; that is, the stack holds at most `2*maxStackSize - 1` members plus those
tied at `worstScore`. -/
theorem C9_size_bound_up_to_ties (beamWidth : ℤ) (maxHypoStackSize : Nat)
    (nBest maxent : Bool) (s : HypothesisStackNormal)
    (h1 : 1 ≤ maxHypoStackSize) (h2 : maxHypoStackSize < 2 ^ 63)
    (hr : Reachable beamWidth maxHypoStackSize nBest maxent s) :
    s.m_hypos.countP (fun m => (m.GetTotalScore : Score) ≠ s.m_worstScore)
        ≤ 2 * maxHypoStackSize - 1 ∧
    s.size ≤ 2 * maxHypoStackSize - 1
      + s.m_hypos.countP (fun m => (m.GetTotalScore : Score) = s.m_worstScore) := by
  obtain ⟨hi, _, hmx, _, _⟩ := hr.inv h1 h2
  have hA : s.m_hypos.countP (fun m => decide ((m.GetTotalScore : Score) ≠ s.m_worstScore))
      ≤ 2 * maxHypoStackSize - 1 := by
    rcases hi.bound with hb | ⟨hall, hcnt, _⟩
    · rw [hmx, pruneLimit_eq _ h1 h2] at hb
      exact (List.countP_le_length _).trans hb
    · have : s.m_hypos.countP (fun m => decide ((m.GetTotalScore : Score) ≠ s.m_worstScore))
          = s.m_hypos.countP (fun m => decide (s.m_worstScore < (m.GetTotalScore : Score))) := by
        apply List.countP_congr
        intro m hm
        simp only [decide_eq_true_eq]
        exact ⟨fun h => lt_of_le_of_ne (hall m hm) (Ne.symm h), fun h => (ne_of_lt h).symm⟩
      rw [this]
      omega
  refine ⟨hA, ?_⟩
  have c5 := List.length_eq_countP_add_countP
    (fun m : Hypothesis => decide ((m.GetTotalScore : Score) = s.m_worstScore)) s.m_hypos
  have c6 : s.m_hypos.countP
        (fun m => decide ¬ (decide ((m.GetTotalScore : Score) = s.m_worstScore)) = true)
      = s.m_hypos.countP (fun m => decide ((m.GetTotalScore : Score) ≠ s.m_worstScore)) := by
    apply List.countP_congr
    intro m _
    simp
  unfold size
  omega

theorem C9_witness :
    ((1 : Nat) ≤ 1 ∧ (1 : Nat) < 2 ^ 63 ∧
      Reachable (-1) 1 false false (stateAfter (-1) 1 false false [tieOne, tieTwo])) ∧
    ((stateAfter (-1) 1 false false [tieOne, tieTwo]).m_hypos.countP
        (fun m => (m.GetTotalScore : Score)
          ≠ (stateAfter (-1) 1 false false [tieOne, tieTwo]).m_worstScore) ≤ 2 * 1 - 1 ∧
    (stateAfter (-1) 1 false false [tieOne, tieTwo]).size ≤ 2 * 1 - 1
      + (stateAfter (-1) 1 false false [tieOne, tieTwo]).m_hypos.countP
          (fun m => (m.GetTotalScore : Score)
            = (stateAfter (-1) 1 false false [tieOne, tieTwo]).m_worstScore)) :=
  ⟨⟨by decide, by decide, ⟨[tieOne, tieTwo], by decide⟩⟩,
    C9_size_bound_up_to_ties (-1) 1 false false (stateAfter (-1) 1 false false [tieOne, tieTwo])
      (by decide) (by decide) ⟨[tieOne, tieTwo], by decide⟩⟩

/-- C10: in every state a fresh stack (`maxStackSize ≥ 1`, any `beamWidth`) reaches
through `AddPrune` calls, whenever the next `AddPrune` call returns, `worstScore` after it
is greater than or equal to `worstScore` before it, also when the call runs
`PruneToSize`, and the new state is again such a state; the call returns when each
pruning pass it may run has a threshold to read. -/
theorem C10_floor_monotonicity (beamWidth : ℤ) (maxHypoStackSize : Nat)
    (nBest maxent : Bool) (s : HypothesisStackNormal) (hypo : Hypothesis)
    (h1 : 1 ≤ maxHypoStackSize) (h2 : maxHypoStackSize < 2 ^ 63)
    (hr : Reachable beamWidth maxHypoStackSize nBest maxent s) :
    (∀ r s', AddPrune s hypo = .ok (r, s') →
      s.m_worstScore ≤ s'.m_worstScore ∧
      Reachable beamWidth maxHypoStackSize nBest maxent s') ∧
    ((findEquiv s hypo = none → ThresholdDefined s hypo) →
      (∀ e, findEquiv s hypo = some e → e.GetTotalScore < hypo.GetTotalScore →
        ThresholdDefined (withoutExisting s hypo e) hypo) →
      ∃ r s', AddPrune s hypo = .ok (r, s')) := by
  obtain ⟨hi, _, hmx, _, _⟩ := hr.inv h1 h2
  have h1' : 1 ≤ s.m_maxHypoStackSize := by rw [hmx]; exact h1
  have h2' : s.m_maxHypoStackSize < 2 ^ 63 := by rw [hmx]; exact h2
  obtain ⟨hypos, hrun⟩ := hr
  refine ⟨?_, AddPrune_returns s hypo hi.keys⟩
  intro r s' h
  exact ⟨AddPrune_worst_mono s s' hypo r hi h1' h2' h,
    ⟨hypos ++ [hypo], AddPruneAll_append hypos _ s hypo r s' hrun h⟩⟩

theorem C10_witness :
    ((1 : Nat) ≤ 1 ∧ (1 : Nat) < 2 ^ 63 ∧
      Reachable (-1) 1 false false (stateAfter (-1) 1 false false [tieOne]) ∧
      AddPrune (stateAfter (-1) 1 false false [tieOne]) hypoSeven
        = .ok (true, stateAfter (-1) 1 false false [tieOne, hypoSeven])) ∧
    ((stateAfter (-1) 1 false false [tieOne]).m_worstScore
        ≤ (stateAfter (-1) 1 false false [tieOne, hypoSeven]).m_worstScore ∧
      Reachable (-1) 1 false false (stateAfter (-1) 1 false false [tieOne, hypoSeven])) ∧
    (stateAfter (-1) 1 false false [tieOne]).sentenceStats.m_numPruned
      < (stateAfter (-1) 1 false false [tieOne, hypoSeven]).sentenceStats.m_numPruned :=
  ⟨⟨by decide, by decide, ⟨[tieOne], by decide⟩, by decide⟩,
    (C10_floor_monotonicity (-1) 1 false false (stateAfter (-1) 1 false false [tieOne]) hypoSeven
      (by decide) (by decide) ⟨[tieOne], by decide⟩).1 true
      (stateAfter (-1) 1 false false [tieOne, hypoSeven]) (by decide),
    by decide⟩

/-- C11: in every state a fresh stack (`maxStackSize ≥ 1`, any `beamWidth`) reaches
through `AddPrune` calls, whenever the next call returns, `bestScore` has not decreased,
and if the stack is non-empty afterwards `bestScore` is the greatest score among its
members: some member has that score and no member has a greater one; the new state is
again such a state; the call returns when each pruning pass it may run has a threshold
to read. -/
theorem C11_best_monotonicity (beamWidth : ℤ) (maxHypoStackSize : Nat)
    (nBest maxent : Bool) (s : HypothesisStackNormal) (hypo : Hypothesis)
    (h1 : 1 ≤ maxHypoStackSize) (h2 : maxHypoStackSize < 2 ^ 63)
    (hr : Reachable beamWidth maxHypoStackSize nBest maxent s) :
    (∀ r s', AddPrune s hypo = .ok (r, s') →
      s.m_bestScore ≤ s'.m_bestScore ∧
      (s'.m_hypos ≠ [] →
        (∃ m ∈ s'.m_hypos, (m.GetTotalScore : Score) = s'.m_bestScore) ∧
        ∀ m ∈ s'.m_hypos, (m.GetTotalScore : Score) ≤ s'.m_bestScore) ∧
      Reachable beamWidth maxHypoStackSize nBest maxent s') ∧
    ((findEquiv s hypo = none → ThresholdDefined s hypo) →
      (∀ e, findEquiv s hypo = some e → e.GetTotalScore < hypo.GetTotalScore →
        ThresholdDefined (withoutExisting s hypo e) hypo) →
      ∃ r s', AddPrune s hypo = .ok (r, s')) := by
  obtain ⟨hi, _, hmx, _, _⟩ := hr.inv h1 h2
  have h1' : 1 ≤ s.m_maxHypoStackSize := by rw [hmx]; exact h1
  have h2' : s.m_maxHypoStackSize < 2 ^ 63 := by rw [hmx]; exact h2
  obtain ⟨hypos, hrun⟩ := hr
  refine ⟨?_, AddPrune_returns s hypo hi.keys⟩
  intro r s' h
  have hi' := AddPrune_inv s s' hypo r hi h1' h2' h
  refine ⟨AddPrune_best_mono s s' hypo r hi.keys h, ?_,
    ⟨hypos ++ [hypo], AddPruneAll_append hypos _ s hypo r s' hrun h⟩⟩
  intro hne
  refine ⟨?_, hi'.le_best⟩
  rcases hi'.attained with ⟨hnil, _, _⟩ | hm
  · exact absurd hnil hne
  · exact hm

theorem C11_witness :
    ((1 : Nat) ≤ 1 ∧ (1 : Nat) < 2 ^ 63 ∧
      Reachable (-1) 1 true false (stateAfter (-1) 1 true false [hypoTen]) ∧
      AddPrune (stateAfter (-1) 1 true false [hypoTen]) hypoTwelve
        = .ok (false, stateAfter (-1) 1 true false [hypoTen, hypoTwelve])) ∧
    ((stateAfter (-1) 1 true false [hypoTen]).m_bestScore
        ≤ (stateAfter (-1) 1 true false [hypoTen, hypoTwelve]).m_bestScore ∧
      ((stateAfter (-1) 1 true false [hypoTen, hypoTwelve]).m_hypos ≠ [] →
        (∃ m ∈ (stateAfter (-1) 1 true false [hypoTen, hypoTwelve]).m_hypos,
          (m.GetTotalScore : Score)
            = (stateAfter (-1) 1 true false [hypoTen, hypoTwelve]).m_bestScore) ∧
        ∀ m ∈ (stateAfter (-1) 1 true false [hypoTen, hypoTwelve]).m_hypos,
          (m.GetTotalScore : Score)
            ≤ (stateAfter (-1) 1 true false [hypoTen, hypoTwelve]).m_bestScore) ∧
      Reachable (-1) 1 true false (stateAfter (-1) 1 true false [hypoTen, hypoTwelve])) ∧
    (stateAfter (-1) 1 true false [hypoTen, hypoTwelve]).m_bestScore = ((12 : ℤ) : Score) :=
  ⟨⟨by decide, by decide, ⟨[hypoTen], by decide⟩, by decide⟩,
    (C11_best_monotonicity (-1) 1 true false (stateAfter (-1) 1 true false [hypoTen]) hypoTwelve
      (by decide) (by decide) ⟨[hypoTen], by decide⟩).1 false
      (stateAfter (-1) 1 true false [hypoTen, hypoTwelve]) (by decide),
    by decide⟩

/-- C12: in every state a fresh stack with `beamWidth ≤ 0` and `maxStackSize ≥ 1` reaches
through `AddPrune` calls, the fresh state included, `worstScore ≤ bestScore`. -/
theorem C12_floor_never_above_best (beamWidth : ℤ) (maxHypoStackSize : Nat)
    (nBest maxent : Bool) (s : HypothesisStackNormal)
    (h1 : 1 ≤ maxHypoStackSize) (h2 : maxHypoStackSize < 2 ^ 63) (hbw : beamWidth ≤ 0)
    (hr : Reachable beamWidth maxHypoStackSize nBest maxent s) :
    s.m_worstScore ≤ s.m_bestScore := by
  obtain ⟨hi, hb, _, _, _⟩ := hr.inv h1 h2
  rcases hi.floor with hf | hf
  · rw [hf, hb]
    generalize s.m_bestScore = b
    induction b using WithBot.recBotCoe with
    | bot => simp
    | coe b => norm_cast; omega
  · rcases hi.attained with ⟨_, _, hw⟩ | ⟨m, hm, he⟩
    · rw [hw]; exact bot_le
    · rw [← he]; exact hf m hm

theorem C12_witness :
    ((1 : Nat) ≤ 2 ∧ (2 : Nat) < 2 ^ 63 ∧ (-1 : ℤ) ≤ 0 ∧
      Reachable (-1) 2 false false (stateAfter (-1) 2 false false scenarioHypos)) ∧
    (stateAfter (-1) 2 false false scenarioHypos).m_worstScore
      ≤ (stateAfter (-1) 2 false false scenarioHypos).m_bestScore :=
  ⟨⟨by decide, by decide, by decide, ⟨scenarioHypos, by decide⟩⟩,
    C12_floor_never_above_best (-1) 2 false false (stateAfter (-1) 2 false false scenarioHypos)
      (by decide) (by decide) (by decide) ⟨scenarioHypos, by decide⟩⟩

/-- C13, as stated, fails: after the five admissions of the scenario the stack holds three
members, not two: the hypothesis of score 4 is a member although 4 is below
`bestScore + beamWidth = 5`. -/
theorem C13_counterexample :
    AddPruneAll (new (-1) 2 false false) (scenarioHypos ++ [scenarioLast])
      = .ok (stateAfter (-1) 2 false false (scenarioHypos ++ [scenarioLast])) ∧
    (stateAfter (-1) 2 false false (scenarioHypos ++ [scenarioLast])).size = 3 ∧
    (∃ m ∈ (stateAfter (-1) 2 false false (scenarioHypos ++ [scenarioLast])).m_hypos,
      m.GetTotalScore = 4 ∧
      (m.GetTotalScore : Score)
        < (stateAfter (-1) 2 false false (scenarioHypos ++ [scenarioLast])).m_bestScore
          + (((stateAfter (-1) 2 false false (scenarioHypos ++ [scenarioLast])).m_beamWidth : ℤ)
              : Score)) ∧
    ¬ ∀ m ∈ (stateAfter (-1) 2 false false (scenarioHypos ++ [scenarioLast])).m_hypos,
      m.GetTotalScore = 6 ∨ m.GetTotalScore = 5 := by
  decide

/-- C13, amended: on a fresh stack with `maxStackSize = 2` and `beamWidth = -1`, after the
admission of five hypotheses of distinct keys with the scores 5, 4, 3, 6, -10 in that
order, `bestScore = 6`, `worstScore = 5`, the members are the three hypotheses of scores
6, 5 and 4, the hypotheses of scores 3 and -10 were discarded on admission, and no
pruning pass has evicted anything. -/
theorem C13_scenario_outcome :
    AddPruneAll (new (-1) 2 false false) (scenarioHypos ++ [scenarioLast])
      = .ok (stateAfter (-1) 2 false false (scenarioHypos ++ [scenarioLast])) ∧
    (stateAfter (-1) 2 false false (scenarioHypos ++ [scenarioLast])).m_bestScore = ((6 : ℤ) : Score) ∧
    (stateAfter (-1) 2 false false (scenarioHypos ++ [scenarioLast])).m_worstScore = ((5 : ℤ) : Score) ∧
    (GetSortedList (stateAfter (-1) 2 false false (scenarioHypos ++ [scenarioLast]))).1.map
        Hypothesis.GetTotalScore = [6, 5, 4] ∧
    (stateAfter (-1) 2 false false (scenarioHypos ++ [scenarioLast])).freed.map
        Hypothesis.GetTotalScore = [3, -10] ∧
    (stateAfter (-1) 2 false false (scenarioHypos ++ [scenarioLast])).sentenceStats.m_numDiscarded
      = 2 ∧
    (stateAfter (-1) 2 false false (scenarioHypos ++ [scenarioLast])).sentenceStats.m_numPruned
      = 0 := by
  decide

/-- C14: with `beamWidth = 0` and `maxStackSize = 1`, the admission of a second hypothesis
of score 5 runs `PruneToSize 1` on a stack of two members none of which is above
`bestScore + beamWidth`; the queue of candidates is empty and the call ends in the read
of `top()` from the empty queue instead of returning. -/
theorem C14_top_of_empty_queue :
    1 < (afterInsert (stateAfter 0 1 false false [tieOne]) tieTwo).size ∧
    (∀ m ∈ (afterInsert (stateAfter 0 1 false false [tieOne]) tieTwo).m_hypos,
      ¬ (afterInsert (stateAfter 0 1 false false [tieOne]) tieTwo).m_bestScore
          + (((afterInsert (stateAfter 0 1 false false [tieOne]) tieTwo).m_beamWidth : ℤ) : Score)
        < (m.GetTotalScore : Score)) ∧
    PruneToSize (afterInsert (stateAfter 0 1 false false [tieOne]) tieTwo) 1
      = .error Fault.emptyHeapTop ∧
    AddPrune (stateAfter 0 1 false false [tieOne]) tieTwo = .error Fault.emptyHeapTop ∧
    AddPruneAll (new 0 1 false false) [tieOne, tieTwo] = .error Fault.emptyHeapTop := by
  decide

/-- C15: `GetBestHypothesis` returns none exactly when the stack is empty; on a non-empty
stack it returns a member whose score is greater than or equal to the score of every
member; and it leaves the state (members, `bestScore`, `worstScore`) as it was. -/
theorem C15_best_hypothesis (s : HypothesisStackNormal) :
    ((GetBestHypothesis s).1 = none ↔ s.m_hypos = []) ∧
    (s.m_hypos ≠ [] → ∃ b, (GetBestHypothesis s).1 = some b ∧ b ∈ s.m_hypos ∧
      ∀ m ∈ s.m_hypos, m.GetTotalScore ≤ b.GetTotalScore) ∧
    (GetBestHypothesis s).2 = s := by
  by_cases h : s.m_hypos = []
  · rw [GetBestHypothesis_nil s h]
    exact ⟨⟨fun _ => h, fun _ => rfl⟩, fun hne => absurd h hne, rfl⟩
  · obtain ⟨b, hb, hmem, hmax⟩ := GetBestHypothesis_some s h
    rw [hb]
    refine ⟨⟨?_, fun hnil => absurd hnil h⟩, fun _ => ⟨b, rfl, hmem, hmax⟩, rfl⟩
    intro hx
    cases hx

theorem C15_witness :
    (((GetBestHypothesis (stateAfter (-1) 2 false false scenarioHypos)).1 = none
        ↔ (stateAfter (-1) 2 false false scenarioHypos).m_hypos = []) ∧
    ((stateAfter (-1) 2 false false scenarioHypos).m_hypos ≠ [] →
      ∃ b, (GetBestHypothesis (stateAfter (-1) 2 false false scenarioHypos)).1 = some b ∧
        b ∈ (stateAfter (-1) 2 false false scenarioHypos).m_hypos ∧
        ∀ m ∈ (stateAfter (-1) 2 false false scenarioHypos).m_hypos,
          m.GetTotalScore ≤ b.GetTotalScore) ∧
    (GetBestHypothesis (stateAfter (-1) 2 false false scenarioHypos)).2
      = stateAfter (-1) 2 false false scenarioHypos) ∧
    (GetBestHypothesis (stateAfter (-1) 2 false false scenarioHypos)).1.map
      Hypothesis.GetTotalScore = some 6 :=
  ⟨C15_best_hypothesis (stateAfter (-1) 2 false false scenarioHypos), by decide⟩

/-- C16: `GetSortedList` returns a permutation of the members, ordered by non-increasing
score, and leaves the state as it was; on a non-empty stack the first element of the
list has the score of the hypothesis `GetBestHypothesis` returns. -/
theorem C16_sorted_list (s : HypothesisStackNormal) :
    (GetSortedList s).1.Perm s.m_hypos ∧
    (GetSortedList s).1.Sorted (fun a b => b.GetTotalScore ≤ a.GetTotalScore) ∧
    (GetSortedList s).2 = s ∧
    (s.m_hypos ≠ [] → ∃ h b, (GetSortedList s).1.head? = some h ∧
      (GetBestHypothesis s).1 = some b ∧ h.GetTotalScore = b.GetTotalScore) := by
  have hp : (GetSortedList s).1.Perm s.m_hypos := stdSort_perm s.m_hypos
  have hs : (GetSortedList s).1.Sorted (fun a b => b.GetTotalScore ≤ a.GetTotalScore) :=
    stdSort_sorted s.m_hypos
  refine ⟨hp, hs, rfl, ?_⟩
  intro hne
  obtain ⟨b, hb, hmem, hmax⟩ := GetBestHypothesis_some s hne
  generalize (GetSortedList s).1 = L at hp hs
  cases L with
  | nil => exact absurd hp.symm.eq_nil hne
  | cons h rest =>
    refine ⟨h, b, rfl, by rw [hb], le_antisymm (hmax h (hp.subset (List.mem_cons_self _ _))) ?_⟩
    rcases List.mem_cons.mp (hp.symm.subset hmem) with hbh | hbr
    · rw [hbh]
    · exact List.rel_of_sorted_cons hs b hbr

theorem C16_witness :
    ((GetSortedList (stateAfter (-1) 2 false false scenarioHypos)).1.Perm
        (stateAfter (-1) 2 false false scenarioHypos).m_hypos ∧
    (GetSortedList (stateAfter (-1) 2 false false scenarioHypos)).1.Sorted
        (fun a b => b.GetTotalScore ≤ a.GetTotalScore) ∧
    (GetSortedList (stateAfter (-1) 2 false false scenarioHypos)).2
      = stateAfter (-1) 2 false false scenarioHypos ∧
    ((stateAfter (-1) 2 false false scenarioHypos).m_hypos ≠ [] →
      ∃ h b, (GetSortedList (stateAfter (-1) 2 false false scenarioHypos)).1.head? = some h ∧
        (GetBestHypothesis (stateAfter (-1) 2 false false scenarioHypos)).1 = some b ∧
        h.GetTotalScore = b.GetTotalScore)) ∧
    (GetSortedList (stateAfter (-1) 2 false false scenarioHypos)).1.map
      Hypothesis.GetTotalScore = [6, 5, 4] :=
  ⟨C16_sorted_list (stateAfter (-1) 2 false false scenarioHypos), by decide⟩

/-- C17: in every state a fresh stack reaches through `AddPrune` calls, whatever the
configuration (n-best on or off, maxent reordering on or off), no two distinct members
have the same equivalence key. -/
theorem C17_key_uniqueness (beamWidth : ℤ) (maxHypoStackSize : Nat)
    (nBest maxent : Bool) (s : HypothesisStackNormal)
    (hr : Reachable beamWidth maxHypoStackSize nBest maxent s) :
    (s.m_hypos.map Hypothesis.key).Nodup ∧
    ∀ a ∈ s.m_hypos, ∀ b ∈ s.m_hypos, a.key = b.key → a = b := by
  obtain ⟨hypos, h⟩ := hr
  have hk := AddPruneAll_keys hypos _ s (by simp [new]) h
  exact ⟨hk, fun a ha b hb hab => List.inj_on_of_nodup_map hk ha hb hab⟩

theorem C17_witness :
    Reachable (-1) 1 true true (stateAfter (-1) 1 true true [gapExisting, gapIncoming, tieOne]) ∧
    ((stateAfter (-1) 1 true true [gapExisting, gapIncoming, tieOne]).m_hypos.map
        Hypothesis.key).Nodup ∧
    ∀ a ∈ (stateAfter (-1) 1 true true [gapExisting, gapIncoming, tieOne]).m_hypos,
      ∀ b ∈ (stateAfter (-1) 1 true true [gapExisting, gapIncoming, tieOne]).m_hypos,
        a.key = b.key → a = b :=
  ⟨⟨[gapExisting, gapIncoming, tieOne], by decide⟩,
    C17_key_uniqueness (-1) 1 true true
      (stateAfter (-1) 1 true true [gapExisting, gapIncoming, tieOne])
      ⟨[gapExisting, gapIncoming, tieOne], by decide⟩⟩

/-- C18: with n-best and maxent reordering active, `gapIncoming` collides with the member
`gapExisting` and the reordering exception fires; after `AddPrune` has returned (true)
`gapIncoming` is in none of the three states: it is not a member, it is in the arc list of
no hypothesis, and it has not been destroyed. -/
theorem C18_exception_leaves_incoming_unowned :
    findEquiv (stateAfter (-1) 1 true true [gapExisting]) gapIncoming = some gapExisting ∧
    ∃ s', AddPrune (stateAfter (-1) 1 true true [gapExisting]) gapIncoming = .ok (true, s') ∧
      gapIncoming ∉ s'.m_hypos ∧
      (∀ p ∈ s'.arcs, p.2 ≠ gapIncoming) ∧
      arcList s' gapExisting = [] ∧
      gapIncoming ∉ s'.freed :=
  ⟨by decide, stateAfter (-1) 1 true true [gapExisting], by decide, by decide, by decide,
    by decide, by decide⟩

/-- C19: in a stack whose members have pairwise distinct keys, when the incoming
hypothesis collides with the member `e` and has a strictly higher score, the stack without
`e` has no member of that key, so the second `Add` takes the insertion path: it never
reports "not added", it returns the incoming hypothesis as added whenever its pruning
pass has a threshold to read, and `AddPrune` never ends in `abort()`. -/
theorem C19_reinsertion_succeeds (s : HypothesisStackNormal) (hypo e : Hypothesis)
    (hk : (s.m_hypos.map Hypothesis.key).Nodup)
    (he : e ∈ s.m_hypos) (hkey : e.key = hypo.key)
    (hlt : e.GetTotalScore < hypo.GetTotalScore) :
    findEquiv (withoutExisting s hypo e) hypo = none ∧
    (∀ x s4, Add (withoutExisting s hypo e) hypo ≠ .ok ((x, false), s4)) ∧
    (((afterInsert (withoutExisting s hypo e) hypo).m_hypos.length
          ≤ pruneLimit s.m_maxHypoStackSize ∨
        candidateScores (afterInsert (withoutExisting s hypo e) hypo) ≠ []) →
      ∃ s4, Add (withoutExisting s hypo e) hypo = .ok ((hypo, true), s4)) ∧
    AddPrune s hypo ≠ .error Fault.abort ∧
    (¬ (hypo.GetTotalScore : Score) < s.m_worstScore →
      ¬ (s.useMaxentReordering = true ∧ doNotRecombine hypo e = true) →
      AddPrune s hypo
        = (insertResult (withoutExisting s hypo e) hypo).map (fun s4 => (false, s4))) := by
  have hf := findEquiv_of_mem s hypo e hk he hkey
  have hnone := findEquiv_withoutExisting s hypo e hk hf
  have hadd := Add_eq_insertResult _ hypo hnone
  refine ⟨hnone, ?_, ?_, AddPrune_ne_abort s hypo hk, ?_⟩
  · intro x s4 h
    rw [hadd] at h
    cases hr : insertResult (withoutExisting s hypo e) hypo with
    | error f => rw [hr] at h; cases h
    | ok s' => rw [hr] at h; cases h
  · intro hc
    rw [← (withoutExisting_fields s hypo e).2.2.2.2.1] at hc
    obtain ⟨s4, hs4⟩ := insertResult_ok_of _ hypo hc
    exact ⟨s4, by rw [hadd, hs4]; rfl⟩
  · intro ha h3
    exact AddPrune_win_eq s hypo e ha hf h3 hlt hnone

theorem C19_witness :
    (((stateAfter (-1) 1 true false [hypoTen]).m_hypos.map Hypothesis.key).Nodup ∧
      hypoTen ∈ (stateAfter (-1) 1 true false [hypoTen]).m_hypos ∧
      hypoTen.key = hypoTwelve.key ∧ hypoTen.GetTotalScore < hypoTwelve.GetTotalScore) ∧
    (findEquiv (withoutExisting (stateAfter (-1) 1 true false [hypoTen]) hypoTwelve hypoTen)
        hypoTwelve = none ∧
    (∀ x s4, Add (withoutExisting (stateAfter (-1) 1 true false [hypoTen]) hypoTwelve hypoTen)
        hypoTwelve ≠ .ok ((x, false), s4)) ∧
    (((afterInsert (withoutExisting (stateAfter (-1) 1 true false [hypoTen]) hypoTwelve hypoTen)
          hypoTwelve).m_hypos.length
          ≤ pruneLimit (stateAfter (-1) 1 true false [hypoTen]).m_maxHypoStackSize ∨
        candidateScores (afterInsert
          (withoutExisting (stateAfter (-1) 1 true false [hypoTen]) hypoTwelve hypoTen)
          hypoTwelve) ≠ []) →
      ∃ s4, Add (withoutExisting (stateAfter (-1) 1 true false [hypoTen]) hypoTwelve hypoTen)
        hypoTwelve = .ok ((hypoTwelve, true), s4)) ∧
    AddPrune (stateAfter (-1) 1 true false [hypoTen]) hypoTwelve ≠ .error Fault.abort ∧
    (¬ (hypoTwelve.GetTotalScore : Score) < (stateAfter (-1) 1 true false [hypoTen]).m_worstScore →
      ¬ ((stateAfter (-1) 1 true false [hypoTen]).useMaxentReordering = true
          ∧ doNotRecombine hypoTwelve hypoTen = true) →
      AddPrune (stateAfter (-1) 1 true false [hypoTen]) hypoTwelve
        = (insertResult (withoutExisting (stateAfter (-1) 1 true false [hypoTen])
            hypoTwelve hypoTen) hypoTwelve).map (fun s4 => (false, s4)))) :=
  ⟨⟨by decide, by decide, by decide, by decide⟩,
    C19_reinsertion_succeeds (stateAfter (-1) 1 true false [hypoTen]) hypoTwelve hypoTen
      (by decide) (by decide) (by decide) (by decide)⟩

/-- C21: with maxent reordering inactive, whenever `AddPrune` returns, the flag it returns
is true exactly when the hypothesis is not below `worstScore` and no member has its key.
The call returns false for a hypothesis below `worstScore` and for one that loses a
recombination; it returns false for one that wins a recombination and, when no pruning
follows, leaves it as a member in place of the existing one; it returns true for an
admitted hypothesis of a new key; in the two inserting cases it returns whenever the
stack is within the lazy limit or has a member above the beam margin. -/
theorem C21_return_value (s : HypothesisStackNormal) (hypo : Hypothesis)
    (hme : s.useMaxentReordering = false) :
    (∀ r s', AddPrune s hypo = .ok (r, s') →
      (r = true ↔ (¬ (hypo.GetTotalScore : Score) < s.m_worstScore ∧
        ∀ m ∈ s.m_hypos, m.key ≠ hypo.key))) ∧
    (¬ (hypo.GetTotalScore : Score) < s.m_worstScore →
      (∀ m ∈ s.m_hypos, m.key ≠ hypo.key) →
      ((afterInsert s hypo).m_hypos.length ≤ pruneLimit s.m_maxHypoStackSize ∨
        candidateScores (afterInsert s hypo) ≠ []) →
      ∃ s', AddPrune s hypo = .ok (true, s')) ∧
    ((hypo.GetTotalScore : Score) < s.m_worstScore →
      ∃ s', AddPrune s hypo = .ok (false, s')) ∧
    (∀ e, ¬ (hypo.GetTotalScore : Score) < s.m_worstScore → findEquiv s hypo = some e →
      ¬ e.GetTotalScore < hypo.GetTotalScore → ∃ s', AddPrune s hypo = .ok (false, s')) ∧
    (∀ e, ¬ (hypo.GetTotalScore : Score) < s.m_worstScore → findEquiv s hypo = some e →
      e.GetTotalScore < hypo.GetTotalScore → (s.m_hypos.map Hypothesis.key).Nodup →
      ((afterInsert (withoutExisting s hypo e) hypo).m_hypos.length
          ≤ pruneLimit s.m_maxHypoStackSize →
        AddPrune s hypo = .ok (false, afterInsert (withoutExisting s hypo e) hypo) ∧
        hypo ∈ (afterInsert (withoutExisting s hypo e) hypo).m_hypos ∧
        e ∉ (afterInsert (withoutExisting s hypo e) hypo).m_hypos) ∧
      (candidateScores (afterInsert (withoutExisting s hypo e) hypo) ≠ [] →
        ∃ s', AddPrune s hypo = .ok (false, s'))) := by
  have hexc : ∀ e, ¬ (s.useMaxentReordering = true ∧ doNotRecombine hypo e = true) := by
    intro e h
    rw [hme] at h
    exact Bool.false_ne_true h.1
  refine ⟨?_, ?_, ?_, ?_, ?_⟩
  · intro r s' h
    by_cases ha : (hypo.GetTotalScore : Score) < s.m_worstScore
    · rw [AddPrune_discard s hypo ha] at h
      have hr : r = false := (Prod.mk.inj (Except.ok.inj h)).1.symm
      rw [hr]
      exact ⟨fun hx => absurd hx Bool.false_ne_true, fun hx => absurd ha hx.1⟩
    · cases hf : findEquiv s hypo with
      | none =>
        rw [AddPrune_new_eq s hypo ha hf] at h
        have hr : r = true := by
          cases hi : insertResult s hypo with
          | error f => rw [hi] at h; cases h
          | ok s3 =>
            rw [hi] at h
            exact (Prod.mk.inj (Except.ok.inj h)).1.symm
        exact ⟨fun _ => ⟨ha, (findEquiv_eq_none_iff s hypo).mp hf⟩, fun _ => hr⟩
      | some e =>
        have hne := AddPrune_recombine_ne s hypo e ha hf (hexc e) s'
        have hmem := findEquiv_some s hypo e hf
        constructor
        · intro hr
          rw [hr] at h
          exact absurd h hne
        · intro hx
          exact absurd hmem.2 (hx.2 e hmem.1)
  · intro ha hnew hc
    have hf := (findEquiv_eq_none_iff s hypo).mpr hnew
    obtain ⟨s', hs'⟩ := insertResult_ok_of s hypo hc
    exact ⟨s', by rw [AddPrune_new_eq s hypo ha hf, hs']; rfl⟩
  · intro ha
    exact ⟨_, AddPrune_discard s hypo ha⟩
  · intro e ha hf h4
    exact ⟨_, AddPrune_lose s hypo e ha hf (hexc e) h4⟩
  · intro e ha hf h4 hk
    have hnone := findEquiv_withoutExisting s hypo e hk hf
    have hw := AddPrune_win_eq s hypo e ha hf (hexc e) h4 hnone
    have hmx := (withoutExisting_fields s hypo e).2.2.2.2.1
    constructor
    · intro hlen
      refine ⟨?_, (mem_afterInsert _ _ _).mpr (Or.inl rfl), ?_⟩
      · have hi : insertResult (withoutExisting s hypo e) hypo
            = .ok (afterInsert (withoutExisting s hypo e) hypo) := by
          unfold insertResult
          rw [if_neg]
          rw [hmx]
          exact not_lt.mpr hlen
        rw [hw, hi]
        rfl
      · intro hmem
        rcases (mem_afterInsert _ _ _).mp hmem with h | h
        · rw [h] at h4
          exact lt_irrefl _ h4
        · rw [(withoutExisting_fields s hypo e).1] at h
          exact (List.Nodup.not_mem_erase (List.Nodup.of_map _ hk)) h
    · intro hc
      obtain ⟨s', hs'⟩ := insertResult_ok_of (withoutExisting s hypo e) hypo (Or.inr hc)
      exact ⟨s', by rw [hw, hs']; rfl⟩

theorem C21_witness :
    (stateAfter (-1) 1 false false [hypoTen]).useMaxentReordering = false ∧
    (∀ r s', AddPrune (stateAfter (-1) 1 false false [hypoTen]) hypoTwelve = .ok (r, s') →
      (r = true ↔
        (¬ (hypoTwelve.GetTotalScore : Score)
            < (stateAfter (-1) 1 false false [hypoTen]).m_worstScore ∧
          ∀ m ∈ (stateAfter (-1) 1 false false [hypoTen]).m_hypos, m.key ≠ hypoTwelve.key))) ∧
    AddPrune (stateAfter (-1) 1 false false [hypoTen]) hypoTwelve
      = .ok (false, afterInsert
          (withoutExisting (stateAfter (-1) 1 false false [hypoTen]) hypoTwelve hypoTen)
          hypoTwelve) :=
  ⟨by decide,
    (C21_return_value (stateAfter (-1) 1 false false [hypoTen]) hypoTwelve (by decide)).1,
    (((C21_return_value (stateAfter (-1) 1 false false [hypoTen]) hypoTwelve
      (by decide)).2.2.2.2 hypoTen (by decide) (by decide) (by decide) (by decide)).1
        (by decide)).1⟩

/-- C22: some stack a fresh stack reaches through `AddPrune` calls and some hypothesis of
a new key that is not below `worstScore` are such that `AddPrune` returns true although
the hypothesis is not a member afterwards: with `maxStackSize = 1` and `beamWidth = -10`,
after a hypothesis of score 5, the one of score 3 is inserted, the pruning pass its
insertion triggers has threshold 5, and it is evicted and destroyed. -/
theorem C22_self_eviction :
    ∃ (beamWidth : ℤ) (maxHypoStackSize : Nat) (nBest maxent : Bool)
      (s s' : HypothesisStackNormal) (hypo : Hypothesis),
      1 ≤ maxHypoStackSize ∧ beamWidth < 0 ∧
      Reachable beamWidth maxHypoStackSize nBest maxent s ∧
      (∀ m ∈ s.m_hypos, m.key ≠ hypo.key) ∧
      ¬ (hypo.GetTotalScore : Score) < s.m_worstScore ∧
      AddPrune s hypo = .ok (true, s') ∧
      hypo ∈ (afterInsert s hypo).m_hypos ∧
      pruneLimit maxHypoStackSize < (afterInsert s hypo).m_hypos.length ∧
      scoreThreshold (afterInsert s hypo) maxHypoStackSize = some 5 ∧
      hypo ∉ s'.m_hypos ∧ hypo ∈ s'.freed ∧
      s'.sentenceStats.m_numPruned = s.sentenceStats.m_numPruned + 1 ∧
      beamWidth = -10 ∧ maxHypoStackSize = 1 ∧
      s.m_hypos.map Hypothesis.GetTotalScore = [5] ∧ hypo.GetTotalScore = 3 :=
  ⟨-10, 1, false, false, stateAfter (-10) 1 false false [tieOne],
    stateAfter (-10) 1 false false [tieOne, hypoThree], hypoThree,
    by decide, by decide, ⟨[tieOne], by decide⟩, by decide, by decide, by decide, by decide,
    by decide, by decide, by decide, by decide, by decide, rfl, rfl, by decide, by decide⟩

end HypothesisStackNormal

end Moses
